import Mathlib

/-!
# AI Sheets Helper: extraction pipeline, validator, bridge and endpoints

A shallow embedding of the JavaScript sources `fix-table.js`,
`create-formula.js`, `background.js`, `content.js` and `injected.js`.

* A JavaScript string is modelled by the list of its characters
  (`List Char`); string *values* produced by `JSON.parse` are kept as lists of
  UTF-16 code units, which is what `\uXXXX` escapes denote.
* `JSON.parse` is the ECMA-404 grammar, run as a one-pass pushdown automaton
  over the text (`JSONParse.step`), so that it is total and evaluates on
  concrete texts.
* The three regular expressions of the sources are embedded as the
  leftmost-match functions `fenceMatch`, `arrayMatch` and `objectMatch`.
-/

namespace AiSheets

/-! ## JavaScript values obtained from JSON texts -/

/-- A value built by `JSON.parse`.  A number is kept as its exact decimal
`(-1)^neg * mant * 10^exp10`; an object is the list of its members in document
order (a repeated key is looked up at its last occurrence). -/
inductive Json where
  | null
  | bool (b : Bool)
  | num (neg : Bool) (mant : Nat) (exp10 : Int)
  | str (units : List Nat)
  | arr (items : List Json)
  | obj (members : List (List Nat × Json))

/-- The constructor of a thrown error. -/
inductive ErrorName where
  | Error
  | SyntaxError
  | TypeError
deriving DecidableEq, Repr

/-- A thrown error object: its constructor and its `message`. -/
structure JsError where
  name : ErrorName
  message : String
deriving DecidableEq, Repr

/-- The `SyntaxError` of `JSON.parse`; the wording of its message is the
engine's and is not modelled. -/
def syntaxError : JsError := ⟨.SyntaxError, "Unexpected token in JSON"⟩

/-- The `TypeError` of reading a property of `undefined` or `null`, or of
calling what is not a function; the wording of its message is the engine's. -/
def typeError : JsError := ⟨.TypeError, "not a function or not an object"⟩

/-- The error made by `new Error(message)`. -/
def mkError (message : String) : JsError := ⟨.Error, message⟩

/-- The UTF-16 code units of one character. -/
def utf16 (c : Char) : List Nat :=
  if c.toNat < 65536 then [c.toNat]
  else [55296 + (c.toNat - 65536) / 1024, 56320 + (c.toNat - 65536) % 1024]

/-- The UTF-16 code units of a text. -/
def units (s : String) : List Nat :=
  s.toList.flatMap utf16

namespace Json

/-- Whether the value is an array (`Array.isArray`). -/
def isArr : Json → Bool
  | arr _ => true
  | _ => false

/-- Whether the value is a plain (non-array) object. -/
def isObj : Json → Bool
  | obj _ => true
  | _ => false

/-- Whether a number rounds to the double `0` (or `-0`): it is zero, or its
magnitude is at most `2^-1075`, half the least subnormal. -/
def numIsZero (mant : Nat) (exp10 : Int) : Bool :=
  match exp10 with
  | Int.ofNat _ => mant == 0
  | Int.negSucc k => decide (mant * 2 ^ 1075 ≤ 10 ^ (k + 1))

/-- JavaScript truthiness (`!v` is its negation). -/
def truthy : Json → Bool
  | null => false
  | bool b => b
  | num _ mant exp10 => !numIsZero mant exp10
  | str us => !us.isEmpty
  | arr _ => true
  | obj _ => true

/-- The last member with the given key, if any. -/
def lookupKey (key : List Nat) : List (List Nat × Json) → Option Json
  | [] => none
  | (k, v) :: rest =>
    match lookupKey key rest with
    | some w => some w
    | none => if k = key then some v else none

mutual
/-- Whether the conversion of a value to a string (in a template literal)
returns rather than throws: an object with an own member `toString` has no
callable conversion, and an array converts its items. -/
def stringifies : Json → Bool
  | arr items => stringifiesAll items
  | obj members => !(members.any (fun m => m.1 == [116, 111, 83, 116, 114, 105, 110, 103]))
  | _ => true
/-- Whether every item of an array converts to a string. -/
def stringifiesAll : List Json → Bool
  | [] => true
  | x :: xs => x.stringifies && stringifiesAll xs
end

end Json

/-- Whether `${v}` returns, for a value that may be `undefined`. -/
def interpolates (v : Option Json) : Bool :=
  match v with
  | none => true
  | some w => w.stringifies

/-- The truthiness of a value that may be `undefined`. -/
def isTruthy (v : Option Json) : Bool :=
  match v with
  | none => false
  | some w => w.truthy

/-! ## `JSON.parse` -/

namespace JSONParse

/-- JSON whitespace: tab, line feed, carriage return, space. -/
def isWs (c : Char) : Bool :=
  c == ' ' || c == '\t' || c == '\n' || c == '\r'

/-- The value of a decimal digit `0`..`9` (code points 48..57). -/
def digit? (c : Char) : Option Nat :=
  if 48 ≤ c.toNat ∧ c.toNat ≤ 57 then some (c.toNat - 48) else none

/-- The value of a hexadecimal digit: `0`..`9`, `a`..`f` (97..102) or
`A`..`F` (65..70). -/
def hex? (c : Char) : Option Nat :=
  if 48 ≤ c.toNat ∧ c.toNat ≤ 57 then some (c.toNat - 48)
  else if 97 ≤ c.toNat ∧ c.toNat ≤ 102 then some (c.toNat - 87)
  else if 65 ≤ c.toNat ∧ c.toNat ≤ 70 then some (c.toNat - 55)
  else none

/-- An open container: an array with the items read so far, or an object with
the members read so far and the key whose value is awaited. -/
inductive Frame where
  | arr (items : List Json)
  | obj (members : List (List Nat × Json)) (key : Option (List Nat))

/-- Where the scanner stands inside a string literal. -/
inductive Esc where
  | plain
  | backslash
  | hex (count : Nat) (val : Nat)

/-- Where the scanner stands inside a number literal. -/
inductive NumSt where
  | minus | zero | int | dot | frac | e | eSign | exp
deriving DecidableEq

/-- How much of `true`, `false` or `null` has been read. -/
inductive Lit where
  | t | tr | tru | f | fa | fal | fals | n | nu | nul
deriving DecidableEq

/-- The digits of a number literal read so far. -/
structure NumAcc where
  neg : Bool
  mant : Nat
  fracLen : Nat
  expNeg : Bool
  expVal : Nat

/-- What the grammar expects next. -/
inductive Pos where
  | value
  | valueOrEnd
  | keyOrEnd
  | key
  | colon
  | afterValue
  | inString (acc : List Nat) (esc : Esc)
  | inNumber (st : NumSt) (acc : NumAcc)
  | inLiteral (l : Lit)

/-- The state of the parser. -/
inductive PState where
  | error
  | run (stack : List Frame) (pos : Pos)
  | done (v : Json)

/-- The number denoted by the digits read. -/
def NumAcc.toJson (a : NumAcc) : Json :=
  Json.num a.neg a.mant ((if a.expNeg then -(a.expVal : Int) else (a.expVal : Int)) - a.fracLen)

/-- Whether a number literal may end in this state. -/
def NumSt.accepting : NumSt → Bool
  | .zero | .int | .frac | .exp => true
  | _ => false

/-- A finished value goes to the innermost open container, or is the result. -/
def pushValue (stack : List Frame) (v : Json) : PState :=
  match stack with
  | [] => .done v
  | .arr items :: rest => .run (.arr (items ++ [v]) :: rest) .afterValue
  | .obj ms (some k) :: rest => .run (.obj (ms ++ [(k, v)]) none :: rest) .afterValue
  | .obj _ none :: _ => .error

/-- A finished string is a key when the innermost object awaits one, a value
otherwise. -/
def pushString (stack : List Frame) (s : List Nat) : PState :=
  match stack with
  | .obj ms none :: rest => .run (.obj ms (some s) :: rest) .colon
  | _ => pushValue stack (.str s)

/-- The first character of a value. -/
def startValue (stack : List Frame) (c : Char) : PState :=
  if c == '{' then .run (.obj [] none :: stack) .keyOrEnd
  else if c == '[' then .run (.arr [] :: stack) .valueOrEnd
  else if c == '"' then .run stack (.inString [] .plain)
  else if c == '-' then .run stack (.inNumber .minus ⟨true, 0, 0, false, 0⟩)
  else if c == '0' then .run stack (.inNumber .zero ⟨false, 0, 0, false, 0⟩)
  else if c == 't' then .run stack (.inLiteral .t)
  else if c == 'f' then .run stack (.inLiteral .f)
  else if c == 'n' then .run stack (.inLiteral .n)
  else match digit? c with
    | some d => .run stack (.inNumber .int ⟨false, d, 0, false, 0⟩)
    | none => .error

/-- A character after a complete value inside a container. -/
def afterStep (stack : List Frame) (c : Char) : PState :=
  if isWs c then .run stack .afterValue
  else match stack with
    | .arr items :: rest =>
      if c == ',' then .run stack .value
      else if c == ']' then pushValue rest (.arr items)
      else .error
    | .obj ms none :: rest =>
      if c == ',' then .run stack .key
      else if c == '}' then pushValue rest (.obj ms)
      else .error
    | _ => .error

/-- A character after the complete top-level value. -/
def doneStep (v : Json) (c : Char) : PState :=
  if isWs c then .done v else .error

/-- The character that ends a number literal is read in the state reached by
the finished number. -/
def endNumber (stack : List Frame) (a : NumAcc) (c : Char) : PState :=
  match pushValue stack a.toJson with
  | .done v => doneStep v c
  | .run st .afterValue => afterStep st c
  | _ => .error

/-- One character inside a string literal. -/
def stringStep (stack : List Frame) (acc : List Nat) (esc : Esc) (c : Char) : PState :=
  match esc with
  | .plain =>
    if c == '"' then pushString stack acc
    else if c == '\\' then .run stack (.inString acc .backslash)
    else if c.toNat < 32 then .error
    else .run stack (.inString (acc ++ utf16 c) .plain)
  | .backslash =>
    if c == '"' then .run stack (.inString (acc ++ [34]) .plain)
    else if c == '\\' then .run stack (.inString (acc ++ [92]) .plain)
    else if c == '/' then .run stack (.inString (acc ++ [47]) .plain)
    else if c == 'b' then .run stack (.inString (acc ++ [8]) .plain)
    else if c == 'f' then .run stack (.inString (acc ++ [12]) .plain)
    else if c == 'n' then .run stack (.inString (acc ++ [10]) .plain)
    else if c == 'r' then .run stack (.inString (acc ++ [13]) .plain)
    else if c == 't' then .run stack (.inString (acc ++ [9]) .plain)
    else if c == 'u' then .run stack (.inString acc (.hex 0 0))
    else .error
  | .hex count val =>
    match hex? c with
    | some h =>
      if count = 3 then .run stack (.inString (acc ++ [val * 16 + h]) .plain)
      else .run stack (.inString acc (.hex (count + 1) (val * 16 + h)))
    | none => .error

/-- One character inside a number literal. -/
def numberStep (stack : List Frame) (st : NumSt) (a : NumAcc) (c : Char) : PState :=
  match st with
  | .minus =>
    if c == '0' then .run stack (.inNumber .zero a)
    else match digit? c with
      | some d => .run stack (.inNumber .int { a with mant := d })
      | none => .error
  | .zero =>
    if c == '.' then .run stack (.inNumber .dot a)
    else if c == 'e' || c == 'E' then .run stack (.inNumber .e a)
    else match digit? c with
      | some _ => .error
      | none => endNumber stack a c
  | .int =>
    if c == '.' then .run stack (.inNumber .dot a)
    else if c == 'e' || c == 'E' then .run stack (.inNumber .e a)
    else match digit? c with
      | some d => .run stack (.inNumber .int { a with mant := a.mant * 10 + d })
      | none => endNumber stack a c
  | .dot =>
    match digit? c with
    | some d => .run stack (.inNumber .frac { a with mant := a.mant * 10 + d, fracLen := a.fracLen + 1 })
    | none => .error
  | .frac =>
    if c == 'e' || c == 'E' then .run stack (.inNumber .e a)
    else match digit? c with
      | some d => .run stack (.inNumber .frac { a with mant := a.mant * 10 + d, fracLen := a.fracLen + 1 })
      | none => endNumber stack a c
  | .e =>
    if c == '+' then .run stack (.inNumber .eSign a)
    else if c == '-' then .run stack (.inNumber .eSign { a with expNeg := true })
    else match digit? c with
      | some d => .run stack (.inNumber .exp { a with expVal := d })
      | none => .error
  | .eSign =>
    match digit? c with
    | some d => .run stack (.inNumber .exp { a with expVal := d })
    | none => .error
  | .exp =>
    match digit? c with
    | some d => .run stack (.inNumber .exp { a with expVal := a.expVal * 10 + d })
    | none => endNumber stack a c

/-- One character inside `true`, `false` or `null`. -/
def literalStep (stack : List Frame) (l : Lit) (c : Char) : PState :=
  match l with
  | .t => if c == 'r' then .run stack (.inLiteral .tr) else .error
  | .tr => if c == 'u' then .run stack (.inLiteral .tru) else .error
  | .tru => if c == 'e' then pushValue stack (.bool true) else .error
  | .f => if c == 'a' then .run stack (.inLiteral .fa) else .error
  | .fa => if c == 'l' then .run stack (.inLiteral .fal) else .error
  | .fal => if c == 's' then .run stack (.inLiteral .fals) else .error
  | .fals => if c == 'e' then pushValue stack (.bool false) else .error
  | .n => if c == 'u' then .run stack (.inLiteral .nu) else .error
  | .nu => if c == 'l' then .run stack (.inLiteral .nul) else .error
  | .nul => if c == 'l' then pushValue stack .null else .error

/-- The transition of the parser on one character. -/
def step (s : PState) (c : Char) : PState :=
  match s with
  | .error => .error
  | .done v => doneStep v c
  | .run stack pos =>
    match pos with
    | .value => if isWs c then s else startValue stack c
    | .valueOrEnd =>
      if isWs c then s
      else if c == ']' then
        match stack with
        | .arr items :: rest => pushValue rest (.arr items)
        | _ => .error
      else startValue stack c
    | .keyOrEnd =>
      if isWs c then s
      else if c == '}' then
        match stack with
        | .obj ms none :: rest => pushValue rest (.obj ms)
        | _ => .error
      else if c == '"' then .run stack (.inString [] .plain)
      else .error
    | .key =>
      if isWs c then s
      else if c == '"' then .run stack (.inString [] .plain)
      else .error
    | .colon =>
      if isWs c then s
      else if c == ':' then .run stack .value
      else .error
    | .afterValue => afterStep stack c
    | .inString acc esc => stringStep stack acc esc c
    | .inNumber st a => numberStep stack st a c
    | .inLiteral l => literalStep stack l c

/-- A character that no token of the grammar begins or continues with: what
the proofs use of a character of the class `\s`, and of the backtick. -/
structure Blank (c : Char) : Prop where
  nDigit : digit? c = none
  nQuote : c ≠ '"'
  nBackslash : c ≠ '\\'
  nLBrace : c ≠ '{'
  nRBrace : c ≠ '}'
  nLBracket : c ≠ '['
  nRBracket : c ≠ ']'
  nComma : c ≠ ','
  nColon : c ≠ ':'
  nMinus : c ≠ '-'
  nPlus : c ≠ '+'
  nDot : c ≠ '.'
  nZero : c ≠ '0'
  nE : c ≠ 'e'
  nBigE : c ≠ 'E'
  nT : c ≠ 't'
  nF : c ≠ 'f'
  nN : c ≠ 'n'
  nR : c ≠ 'r'
  nU : c ≠ 'u'
  nA : c ≠ 'a'
  nL : c ≠ 'l'
  nS : c ≠ 's'

/-- Whether the outermost open container is an array. -/
def bottomArr : List Frame → Bool
  | [] => false
  | [.arr _] => true
  | [.obj _ _] => false
  | _ :: g :: rest => bottomArr (g :: rest)

/-- The states in which only an array can be the result. -/
def ArrayBound : PState → Prop
  | .error => True
  | .done v => v.isArr = true
  | .run stack _ => bottomArr stack = true

/-- The state before the first character. -/
def init : PState := .run [] .value

/-- The value of the whole text, when the text is complete. -/
def finish : PState → Option Json
  | .done v => some v
  | .run [] (.inNumber st a) => if st.accepting then some a.toJson else none
  | _ => none

/-- The state after reading a text. -/
def run (s : PState) (text : List Char) : PState :=
  text.foldl step s

end JSONParse

/-- `JSON.parse(text)`: the parsed value, or `none` where it throws a
`SyntaxError`. -/
def jsonParse (text : List Char) : Option Json :=
  JSONParse.finish (JSONParse.run JSONParse.init text)

/-- `JSON.parse(text)` as the code sees it: a value or a thrown `SyntaxError`. -/
def JSON.parse (text : List Char) : Except JsError Json :=
  match jsonParse text with
  | some v => .ok v
  | none => .error syntaxError

/-! ## The regular expressions of the extraction step -/

/-- The class `\s` of JavaScript regular expressions. -/
def isJsSpace (c : Char) : Bool :=
  let n := c.toNat
  n == 9 || n == 10 || n == 11 || n == 12 || n == 13 || n == 32 || n == 160 ||
  n == 5760 || (8192 ≤ n && n ≤ 8202) || n == 8232 || n == 8233 || n == 8239 ||
  n == 8287 || n == 12288 || n == 65279

/-- The triple backtick. -/
def fence : List Char := ['`', '`', '`']

/-- Whether the text continues with `\s*` and then a fence. -/
def closesFence (cs : List Char) : Bool :=
  fence.isPrefixOf (cs.dropWhile isJsSpace)

/-- The group `([\s\S]*?)` followed by `\s*` and the closing fence: the
shortest stretch after which the rest continues with `\s*` and a fence. -/
def lazyCapture : List Char → Option (List Char)
  | [] => none
  | c :: r =>
    if closesFence (c :: r) then some []
    else (lazyCapture r).map (fun cap => c :: cap)

/-- The optional annotation `(?:json)?`, taken when present. -/
def skipJson (cs : List Char) : List Char :=
  if ['j', 's', 'o', 'n'].isPrefixOf cs then cs.drop 4 else cs

/-- What follows the opening fence: `(?:json)?\s*([\s\S]*?)\s*` and the
closing fence; the result is the captured group.  Both `(?:json)?` and `\s*`
are greedy; giving back what they took cannot help, since what they took holds
no backtick. -/
def fenceBody (afterOpen : List Char) : Option (List Char) :=
  lazyCapture ((skipJson afterOpen).dropWhile isJsSpace)

/-- Group 1 of the leftmost match of the fenced-block pattern
(triple backtick, `(?:json)?\s*([\s\S]*?)\s*`, triple backtick),
or `none` when `content.match` returns `null`. -/
def fenceMatch : List Char → Option (List Char)
  | [] => none
  | c :: r =>
    if fence.isPrefixOf (c :: r) then
      match fenceBody (List.drop 3 (c :: r)) with
      | some cap => some cap
      | none => fenceMatch r
    else fenceMatch r

/-- The leftmost match of `lb [\s\S]* rb` for two bracket characters: from the
first `lb` to the last `rb` after it (the star is greedy). -/
def spanMatch (lb rb : Char) (cs : List Char) : Option (List Char) :=
  match cs.dropWhile (fun c => c != lb) with
  | [] => none
  | o :: rest =>
    match rest.reverse.dropWhile (fun c => c != rb) with
    | [] => none
    | r :: body => some (o :: (r :: body).reverse)

/-- Whether the text contains a triple backtick. -/
def hasFence : List Char → Bool
  | [] => false
  | c :: r => fence.isPrefixOf (c :: r) || hasFence r

/-- A completion that holds a text `inner` in a fenced block: prose, the
opening fence, the annotation, blank space, `inner`, blank space, the closing
fence, prose. -/
def fencedText (before ann sep1 inner sep2 after : List Char) : List Char :=
  before ++ (fence ++ (ann ++ (sep1 ++ (inner ++ (sep2 ++ fence ++ after)))))

/-- The region from the first `lb` on to the `rb` that brings the count of open
brackets back to zero, scanned at the given depth. -/
def balancedFrom (lb rb : Char) : Nat → List Char → Option (List Char)
  | _, [] => none
  | depth, c :: r =>
    if c == lb then (balancedFrom lb rb (depth + 1) r).map (fun t => c :: t)
    else if c == rb then
      if depth ≤ 1 then some [c]
      else (balancedFrom lb rb (depth - 1) r).map (fun t => c :: t)
    else (balancedFrom lb rb depth r).map (fun t => c :: t)

/-- The first balanced bracketed region of a text, in the words of the
specification: it starts at the first `lb` and ends at the `rb` closing it. -/
def firstBalanced (lb rb : Char) (cs : List Char) : Option (List Char) :=
  balancedFrom lb rb 0 (cs.dropWhile (fun c => c != lb))

/-- The match of `/\[[\s\S]*\]/`. -/
def arrayMatch (cs : List Char) : Option (List Char) := spanMatch '[' ']' cs

/-- The match of `/\{[\s\S]*\}/`. -/
def objectMatch (cs : List Char) : Option (List Char) := spanMatch '{' '}' cs

/-! ## The extraction step and the validator -/

/-- The extraction step of `analyzeDataWithAI` (fix-table.js, "Extract JSON
from response"). -/
def extractFixes (content : List Char) : Except JsError Json :=
  match JSON.parse content with
  | .ok fixes => .ok fixes
  | .error _ =>
    match fenceMatch content with
    | some inner => JSON.parse inner
    | none =>
      match arrayMatch content with
      | some region => JSON.parse region
      | none => .ok (.arr [])

/-- The extraction step of `generateFormulaWithAI` (create-formula.js). -/
def extractFormula (content : List Char) : Except JsError Json :=
  match JSON.parse content with
  | .ok result => .ok result
  | .error _ =>
    match fenceMatch content with
    | some inner => JSON.parse inner
    | none =>
      match objectMatch content with
      | some region => JSON.parse region
      | none => .error (mkError "Could not parse AI response")

/-- The property read `result.formula`: `undefined` is `none`; reading a
property of `null` throws. -/
def getFormula (result : Json) : Except JsError (Option Json) :=
  match result with
  | .null => .error typeError
  | .obj members => .ok (Json.lookupKey (units "formula") members)
  | _ => .ok none

/-- The call `f.startsWith('=')` on a truthy `f`: only a string has the method
(a value made by `JSON.parse` never holds a function). -/
def startsWithEq (f : Json) : Except JsError Bool :=
  match f with
  | .str us => .ok (us.head? == some 61)
  | _ => .error typeError

/-- The validation at the end of `generateFormulaWithAI`:
`if (!result.formula || !result.formula.startsWith('=')) throw ...; return result`. -/
def validateResult (result : Json) : Except JsError Json :=
  match getFormula result with
  | .error e => .error e
  | .ok none => .error (mkError "Invalid formula generated")
  | .ok (some f) =>
    if !f.truthy then .error (mkError "Invalid formula generated")
    else
      match startsWithEq f with
      | .error e => .error e
      | .ok true => .ok result
      | .ok false => .error (mkError "Invalid formula generated")

/-- What `generateFormulaWithAI` does with the completion text: extraction,
then validation. -/
def formulaFromContent (content : List Char) : Except JsError Json :=
  match extractFormula content with
  | .error e => .error e
  | .ok result => validateResult result

/-! ## The completion provider and the two endpoints -/

/-- The data a prompt template is filled with (`undefined` is `none`). -/
inductive Prompt where
  | fixTable (range : Option Json) (values : Json)
  | createFormula (description : Json) (sheetName : Option Json) (headers : List Json)
      (currentCell lastRow lastCol : Option Json)

/-- One `fetch` to the completion provider: the prompt and `max_tokens`. -/
structure ProviderCall where
  prompt : Prompt
  maxTokens : Nat

/-- What a `fetch` to the provider comes to. -/
inductive ProviderReply where
  /-- `fetch` rejects. -/
  | failed (e : JsError)
  /-- `response.ok` is false; the text of the body. -/
  | notOk (text : String)
  /-- `response.json()` rejects, or `data.choices[0].message.content` throws. -/
  | badBody (e : JsError)
  /-- The text of the first choice. -/
  | content (text : List Char)

/-- The environment of a serverless function: `process.env.OPENROUTER_API_KEY`
and the provider. -/
structure Env where
  apiKey : Option String
  fetch : ProviderCall → ProviderReply

/-- A computation with the provider calls it issued. -/
structure Traced (α : Type) where
  result : Except JsError α
  calls : List ProviderCall

/-- `!OPENROUTER_API_KEY`. -/
def Env.keyMissing (env : Env) : Bool :=
  match env.apiKey with
  | none => true
  | some k => k.isEmpty

/-- What follows the `fetch` in both functions: the status check and the read
of `data.choices[0].message.content`. -/
def readContent (reply : ProviderReply) : Except JsError (List Char) :=
  match reply with
  | .failed e => .error e
  | .notOk text => .error (mkError ("OpenRouter API error: " ++ text))
  | .badBody e => .error e
  | .content text => .ok text

/-- `analyzeDataWithAI(range, values)` of fix-table.js. -/
def analyzeDataWithAI (env : Env) (range : Option Json) (values : Json) : Traced Json :=
  if env.keyMissing then ⟨.error (mkError "API key not configured"), []⟩
  else if !interpolates range then ⟨.error typeError, []⟩
  else
    let call : ProviderCall := ⟨.fixTable range values, 2000⟩
    match readContent (env.fetch call) with
    | .error e => ⟨.error e, [call]⟩
    | .ok content => ⟨extractFixes content, [call]⟩

/-- A property read `v.name` on a value that may be `undefined`: reading a
property of `undefined` or `null` throws, any other value that is not an object
has no such property. -/
def getProp (v : Option Json) (name : String) : Except JsError (Option Json) :=
  match v with
  | none => .error typeError
  | some .null => .error typeError
  | some (.obj members) => .ok (Json.lookupKey (units name) members)
  | some _ => .ok none

/-- The prompt of `generateFormulaWithAI`: the template reads `context.sheetName`,
`context.headers.join(', ')`, `context.currentCell`, `context.lastRow` and
`context.lastCol`, in this order; `join` is there only on an array. -/
def formulaPrompt (description : Json) (context : Option Json) : Except JsError Prompt :=
  match getProp context "sheetName" with
  | .error e => .error e
  | .ok sheetName =>
    match getProp context "headers" with
    | .error e => .error e
    | .ok (some (.arr headers)) =>
      match getProp context "currentCell", getProp context "lastRow", getProp context "lastCol" with
      | .ok currentCell, .ok lastRow, .ok lastCol =>
        if description.stringifies && interpolates sheetName && Json.stringifiesAll headers &&
            interpolates currentCell && interpolates lastRow && interpolates lastCol then
          .ok (.createFormula description sheetName headers currentCell lastRow lastCol)
        else .error typeError
      | _, _, _ => .error typeError
    | .ok _ => .error typeError

/-- `generateFormulaWithAI(description, context)` of create-formula.js. -/
def generateFormulaWithAI (env : Env) (description : Json) (context : Option Json) :
    Traced Json :=
  if env.keyMissing then ⟨.error (mkError "API key not configured"), []⟩
  else
    match formulaPrompt description context with
    | .error e => ⟨.error e, []⟩
    | .ok prompt =>
      let call : ProviderCall := ⟨prompt, 1000⟩
      match readContent (env.fetch call) with
      | .error e => ⟨.error e, [call]⟩
      | .ok content => ⟨formulaFromContent content, [call]⟩

/-- An incoming HTTP request: the method and the parsed body (`undefined` is
`none`). -/
structure Request where
  method : String
  body : Option Json

/-- The body of a response. -/
inductive Body where
  /-- `res.end()`. -/
  | empty
  /-- `res.json({ error: message })`. -/
  | error (message : String)
  /-- `res.json({ fixes })`. -/
  | fixes (fixes : Json)
  /-- `res.json(result)`. -/
  | json (result : Json)

/-- An HTTP response. -/
structure Response where
  status : Nat
  body : Body
  headers : List (String × String)

/-- The response of a handler with the provider calls issued for it. -/
structure Served where
  response : Response
  calls : List ProviderCall

/-- The three headers both handlers set first. -/
def corsHeaders (methods : String) : List (String × String) :=
  [("Access-Control-Allow-Origin", "*"),
   ("Access-Control-Allow-Methods", methods),
   ("Access-Control-Allow-Headers", "Content-Type")]

/-- `error.message || 'Internal server error'`. -/
def failureText (e : JsError) : String :=
  if e.message.isEmpty then "Internal server error" else e.message

/-- The destructuring `const { a, b } = req.body`: it throws on `undefined` and
`null`; the fields of anything that is not an object are `undefined`. -/
def destructure (body : Option Json) (a b : String) :
    Except JsError (Option Json × Option Json) :=
  match getProp body a, getProp body b with
  | .ok x, .ok y => .ok (x, y)
  | .error e, _ => .error e
  | _, .error e => .error e

namespace FixTable

/-- The handler of `/fix-table` (fix-table.js). -/
def handler (env : Env) (req : Request) : Served :=
  let hs := corsHeaders "POST, OPTIONS"
  if req.method = "OPTIONS" then ⟨⟨200, .empty, hs⟩, []⟩
  else if req.method ≠ "POST" then ⟨⟨405, .error "Method not allowed", hs⟩, []⟩
  else
    match destructure req.body "range" "values" with
    | .error e => ⟨⟨500, .error (failureText e), hs⟩, []⟩
    | .ok (range, values) =>
      match values with
      | some (.arr items) =>
        let t := analyzeDataWithAI env range (.arr items)
        match t.result with
        | .ok fixes => ⟨⟨200, .fixes fixes, hs⟩, t.calls⟩
        | .error e => ⟨⟨500, .error (failureText e), hs⟩, t.calls⟩
      | _ => ⟨⟨400, .error "Invalid data format", hs⟩, []⟩

end FixTable

namespace CreateFormula

/-- The handler of `/create-formula` (create-formula.js). -/
def handler (env : Env) (req : Request) : Served :=
  let hs := corsHeaders "POST, OPTIONS"
  if req.method = "OPTIONS" then ⟨⟨200, .empty, hs⟩, []⟩
  else if req.method ≠ "POST" then ⟨⟨405, .error "Method not allowed", hs⟩, []⟩
  else
    match destructure req.body "description" "context" with
    | .error e => ⟨⟨500, .error (failureText e), hs⟩, []⟩
    | .ok (description, context) =>
      match description with
      | none => ⟨⟨400, .error "Description is required", hs⟩, []⟩
      | some d =>
        if !d.truthy then ⟨⟨400, .error "Description is required", hs⟩, []⟩
        else
          let t := generateFormulaWithAI env d context
          match t.result with
          | .ok result => ⟨⟨200, .json result, hs⟩, t.calls⟩
          | .error e => ⟨⟨500, .error (failureText e), hs⟩, t.calls⟩

end CreateFormula

/-! ## The background listener (background.js) -/

/-- A promise as its outcome: fulfilled, rejected, or never settled. -/
inductive Settled (α : Type) where
  | resolved (value : α)
  | rejected (e : JsError)
  | pending

/-- What the `fetch` of `handleApiRequest` comes to. -/
inductive ApiReply where
  /-- `fetch` never settles. -/
  | hangs
  /-- `fetch` rejects. -/
  | failed (e : JsError)
  /-- `response.ok` is false; `response.statusText`. -/
  | notOk (statusText : String)
  /-- `response.json()` rejects. -/
  | badBody (e : JsError)
  /-- The parsed body. -/
  | json (value : Json)

/-- `handleApiRequest(data)`: the `fetch` is given the endpoint and the payload. -/
def handleApiRequest (fetch : Option Json → Option Json → ApiReply) (data : Option Json) :
    Settled Json :=
  match getProp data "endpoint", getProp data "payload" with
  | .ok endpoint, .ok payload =>
    if !interpolates endpoint then .rejected typeError
    else
      match fetch endpoint payload with
      | .hangs => .pending
      | .failed e => .rejected e
      | .notOk statusText => .rejected (mkError ("API request failed: " ++ statusText))
      | .badBody e => .rejected e
      | .json value => .resolved value
  | .error e, _ => .rejected e
  | _, .error e => .rejected e

/-- An argument of `sendResponse`. -/
inductive Reply where
  | success (data : Json)
  | failure (error : String)

/-- What one run of the `onMessage` listener does: the value it returns
(`some true`, or `none` for `undefined` and for a throw) and the calls of
`sendResponse` it causes, in order. -/
structure Listened where
  returned : Option Bool
  replies : List Reply

/-- The `chrome.runtime.onMessage` listener of background.js.  `sendResponse`
itself is taken not to throw. -/
def onMessage (fetch : Option Json → Option Json → ApiReply) (request : Option Json) :
    Listened :=
  match getProp request "action" with
  | .error _ => ⟨none, []⟩
  | .ok action =>
    match action with
    | some (.str a) =>
      if a = units "getApiResponse" then
        match getProp request "data" with
        | .error _ => ⟨none, []⟩
        | .ok data =>
          match handleApiRequest fetch data with
          | .resolved response => ⟨some true, [.success response]⟩
          | .rejected error => ⟨some true, [.failure error.message]⟩
          | .pending => ⟨some true, []⟩
      else ⟨none, []⟩
    | _ => ⟨none, []⟩

/-! ## The bridge to the host sandbox (content.js, injected.js) -/

/-- A message on the window of the page. -/
inductive Message where
  /-- The message of type `AI_SHEETS_EXECUTE`. -/
  | execute (functionName : String) (params : Option Json)
  /-- The message of type `AI_SHEETS_RESPONSE`; `error` is absent on success. -/
  | response (functionName : String) (result : Json) (error : Option String)

/-- The four host functions of injected.js over a host state `σ`.  Each catches
its own exceptions, so each returns a value. -/
structure HostApi (σ : Type) where
  getSelectedRange : σ → Json × σ
  getSheetContext : σ → Json × σ
  applyFixes : Option Json → Option Json → σ → Json × σ
  applyFormula : Option Json → Option Json → Option Json → σ → Json × σ

/-- The `switch` of the executor: the result, or the error thrown by reading a
field of absent `params`. -/
def dispatch {σ : Type} (api : HostApi σ) (functionName : String) (params : Option Json)
    (host : σ) : Except JsError Json × σ :=
  if functionName = "getSelectedRange" then
    let r := api.getSelectedRange host
    (.ok r.1, r.2)
  else if functionName = "getSheetContext" then
    let r := api.getSheetContext host
    (.ok r.1, r.2)
  else if functionName = "applyFixes" then
    match getProp params "fixes", getProp params "rangeData" with
    | .ok fixes, .ok rangeData =>
      let r := api.applyFixes fixes rangeData host
      (.ok r.1, r.2)
    | .error e, _ => (.error e, host)
    | _, .error e => (.error e, host)
  else if functionName = "applyFormula" then
    match getProp params "formula", getProp params "targetCell", getProp params "useAutofill" with
    | .ok formula, .ok targetCell, .ok useAutofill =>
      let r := api.applyFormula formula targetCell useAutofill host
      (.ok r.1, r.2)
    | .error e, _, _ => (.error e, host)
    | _, .error e, _ => (.error e, host)
    | _, _, .error e => (.error e, host)
  else (.ok .null, host)

/-- One executor listener of injected.js on one `AI_SHEETS_EXECUTE` message:
the response it posts and the host state it leaves. -/
def executor {σ : Type} (api : HostApi σ) (functionName : String) (params : Option Json)
    (host : σ) : Message × σ :=
  match dispatch api functionName params host with
  | (.ok result, host') => (.response functionName result none, host')
  | (.error error, host') => (.response functionName .null (some error.message), host')

/-- A listener registered by `injectAndExecute`: the name it filters on and the
callback it calls. -/
structure Listener where
  functionName : String
  callback : Nat
deriving DecidableEq

/-- A queued task of the page: the load of an injected script element, or the
dispatch of a posted message. -/
inductive PageTask where
  | load (functionName : String) (callback : Option Nat) (params : Option Json)
  | deliver (m : Message)

/-- The page: host state, injected script elements in the document, executor
listeners installed by runs of injected.js, listeners of callers, queued tasks
(oldest first), and the logs of callback calls, of posted messages and of host
operations run. -/
structure World (σ : Type) where
  host : σ
  scripts : Nat
  executors : Nat
  listeners : List Listener
  tasks : List PageTask
  callbacks : List (Nat × Json)
  posted : List Message
  executed : List (String × Option Json)

/-- `injectAndExecute(functionName, callback, params)`: the script element is
appended; its load is a later task. -/
def injectAndExecute {σ : Type} (functionName : String) (callback : Option Nat)
    (params : Option Json) (w : World σ) : World σ :=
  { w with scripts := w.scripts + 1, tasks := w.tasks ++ [.load functionName callback params] }

/-- The load of the script element: injected.js runs and installs its listener,
then `onload` posts the request, registers the listener of the caller when
there is a callback, and removes the element. -/
def onLoad {σ : Type} (functionName : String) (callback : Option Nat) (params : Option Json)
    (w : World σ) : World σ :=
  { w with
    executors := w.executors + 1
    tasks := w.tasks ++ [.deliver (.execute functionName params)]
    posted := w.posted ++ [.execute functionName params]
    listeners :=
      match callback with
      | some cb => w.listeners ++ [⟨functionName, cb⟩]
      | none => w.listeners
    scripts := w.scripts - 1 }

/-- The given number of executor listeners handle one request in turn: each runs
the host operation and posts its response. -/
def runExecutors {σ : Type} (api : HostApi σ) (functionName : String) (params : Option Json) :
    Nat → World σ → World σ
  | 0, w => w
  | n + 1, w =>
    let r := executor api functionName params w.host
    runExecutors api functionName params n
      { w with
        host := r.2
        tasks := w.tasks ++ [.deliver r.1]
        posted := w.posted ++ [r.1]
        executed := w.executed ++ [(functionName, params)] }

/-- The listeners of callers on one response: each listener with the name of
the response is removed and its callback is called with `event.data.result`. -/
def onResponse {σ : Type} (functionName : String) (result : Json) (w : World σ) : World σ :=
  { w with
    listeners := w.listeners.filter (fun l => l.functionName != functionName)
    callbacks := w.callbacks ++
      (w.listeners.filter (fun l => l.functionName == functionName)).map
        (fun l => (l.callback, result)) }

/-- The oldest queued task is run. -/
def runTask {σ : Type} (api : HostApi σ) (w : World σ) : World σ :=
  match w.tasks with
  | [] => w
  | t :: rest =>
    let w' := { w with tasks := rest }
    match t with
    | .load functionName callback params => onLoad functionName callback params w'
    | .deliver (.execute functionName params) =>
      runExecutors api functionName params w'.executors w'
    | .deliver (.response functionName result _) => onResponse functionName result w'

/-- Tasks are run until the callback has been called, at most `fuel` of them. -/
def awaitCallback {σ : Type} (api : HostApi σ) (callback : Nat) : Nat → World σ → World σ
  | 0, w => w
  | fuel + 1, w =>
    if w.callbacks.any (fun c => c.1 == callback) then w
    else awaitCallback api callback fuel (runTask api w)

/-- One call with a callback, followed until its callback has run. -/
def callAndAwait {σ : Type} (api : HostApi σ) (functionName : String) (params : Option Json)
    (callback : Nat) (w : World σ) : World σ :=
  let w' := injectAndExecute functionName (some callback) params w
  awaitCallback api callback (w'.tasks.length + 3) w'

/-- The given number of queued tasks are run. -/
def idle {σ : Type} (api : HostApi σ) : Nat → World σ → World σ
  | 0, w => w
  | n + 1, w => idle api n (runTask api w)

/-- A sequence of serialized calls: each is started only after the callback of
the one before has run, and after `pauses i` further queued tasks have been run
for the call numbered `i`; the calls are numbered from `first`. -/
def serialized {σ : Type} (api : HostApi σ) (pauses : Nat → Nat) :
    List (String × Option Json) → Nat → World σ → World σ
  | [], _, w => w
  | (functionName, params) :: rest, first, w =>
    serialized api pauses rest (first + 1)
      (callAndAwait api functionName params first (idle api (pauses first) w))

/-- A page on which nothing has been injected yet. -/
def World.fresh {σ : Type} (host : σ) : World σ :=
  ⟨host, 0, 0, [], [], [], [], []⟩

/-- A host for examples: its state counts the reads; `getSelectedRange` returns
the count and the other functions return `null`. -/
def countingHost : HostApi Nat :=
  ⟨fun h => (.num false h 0, h + 1), fun h => (.null, h), fun _ _ h => (.null, h),
    fun _ _ _ h => (.null, h)⟩

/-- The `result` field of a response (a request has none). -/
def Message.result : Message → Json
  | .response _ result _ => result
  | .execute _ _ => .null

/-- The `error` field of a response, when it has one. -/
def Message.error : Message → Option String
  | .response _ _ error => error
  | .execute _ _ => none

/-- The responses of the given number of executor listeners to one request, in
turn, and the host state they leave. -/
def replies {σ : Type} (api : HostApi σ) (functionName : String) (params : Option Json) :
    Nat → σ → List Message × σ
  | 0, host => ([], host)
  | n + 1, host =>
    let r := executor api functionName params host
    let rest := replies api functionName params n r.2
    (r.1 :: rest.1, rest.2)

/-- What the callbacks of a sequence of serialized calls are to receive: for
each call, numbered from `first`, the result computed for its request by the
executor listener that answers first, on a page that holds `executors`
listeners before the call. -/
def expected {σ : Type} (api : HostApi σ) :
    List (String × Option Json) → Nat → Nat → σ → List (Nat × Json)
  | [], _, _, _ => []
  | (functionName, params) :: rest, first, executors, host =>
    (first, (executor api functionName params host).1.result) ::
      expected api rest (first + 1) (executors + 1)
        (replies api functionName params (executors + 1) host).2

/-- A page between serialized calls: no listener of a caller is registered, no
script element is in the document, the queue holds nothing but responses that
nobody waits for, and the callbacks numbered from `first` on have not run. -/
def Quiet {σ : Type} (w : World σ) (first : Nat) : Prop :=
  w.listeners = [] ∧ w.scripts = 0 ∧
  (∀ t ∈ w.tasks, ∃ functionName result error, t = .deliver (.response functionName result error)) ∧
  (∀ c ∈ w.callbacks, c.1 < first)

/-! ## The host functions `applyFixes` and `applyFormula` (injected.js) -/

/-- A range of the sheet as the code reads it: `getRow()`, `getColumn()`,
`getNumRows()` and `getNumColumns()`, which the host returns as whole numbers. -/
structure Range where
  row : Int
  col : Int
  numRows : Int
  numCols : Int
deriving DecidableEq, Repr

/-- A call of the spreadsheet API that can throw or change the sheet. -/
inductive HostCall where
  /-- `SpreadsheetApp.getActiveSpreadsheet()` and `ss.getActiveSheet()`. -/
  | openSheet
  /-- `sheet.getRange(a1)`. -/
  | getRange (a1 : Option Json)
  /-- `sheet.getActiveRange()`. -/
  | getActiveRange
  /-- `range.setFormula(formula)`. -/
  | setFormula (range : Range) (formula : Option Json)
  /-- `range.setValue(value)`. -/
  | setValue (range : Range) (value : Option Json)
  /-- `sheet.getRange(row, column, numRows, numColumns)`. -/
  | getRangeAt (row col numRows numCols : Int)
  /-- `source.autoFill(destination, DEFAULT_SERIES)`. -/
  | autoFill (source destination : Range)
  /-- `SpreadsheetApp.flush()`. -/
  | flush

/-- The spreadsheet API over a host state `σ`: each call that can throw returns
an error or its result; `getActiveRange` returns a range or `null`. -/
structure SheetApi (σ : Type) where
  openSheet : σ → Except JsError Unit
  getRange : σ → Option Json → Except JsError Range
  getActiveRange : σ → Option Range
  setFormula : σ → Range → Option Json → Except JsError σ
  setValue : σ → Range → Option Json → Except JsError σ
  getLastRow : σ → Int
  getRangeAt : σ → Int → Int → Int → Int → Except JsError Range
  autoFill : σ → Range → Range → Except JsError σ
  flush : σ → Except JsError σ

/-- What a stretch of code did on the host: how it ended, the host state it
left, and the calls it made, in order (a call that threw is the last). -/
structure Ran (σ : Type) (α : Type) where
  result : Except JsError α
  host : σ
  calls : List HostCall

/-- The property read `v.name` on a value that is not `null`. -/
def Json.field (v : Json) (name : String) : Option Json :=
  match v with
  | .obj members => Json.lookupKey (units name) members
  | _ => none

/-- `fix.type === 'formula_error' || fix.type === 'formula'`. -/
def isFormulaType (type : Option Json) : Bool :=
  match type with
  | some (.str us) => us == units "formula_error" || us == units "formula"
  | _ => false

/-- The host write of one fix, after the range was found. -/
def writeFix {σ : Type} (api : SheetApi σ) (fix : Json) (cell : Range) (s : σ) : Ran σ Unit :=
  if isFormulaType (fix.field "type") then
    match api.setFormula s cell (fix.field "newValue") with
    | .error e => ⟨.error e, s, [.setFormula cell (fix.field "newValue")]⟩
    | .ok s' => ⟨.ok (), s', [.setFormula cell (fix.field "newValue")]⟩
  else
    match api.setValue s cell (fix.field "newValue") with
    | .error e => ⟨.error e, s, [.setValue cell (fix.field "newValue")]⟩
    | .ok s' => ⟨.ok (), s', [.setValue cell (fix.field "newValue")]⟩

/-- The callback of `fixes.forEach` on one fix: `sheet.getRange(fix.cell)`, then
the write.  Reading `fix.cell` throws when the fix is `null`. -/
def applyFix {σ : Type} (api : SheetApi σ) (fix : Json) (s : σ) : Ran σ Unit :=
  match fix with
  | .null => ⟨.error typeError, s, []⟩
  | _ =>
    match api.getRange s (fix.field "cell") with
    | .error e => ⟨.error e, s, [.getRange (fix.field "cell")]⟩
    | .ok cell =>
      let r := writeFix api fix cell s
      ⟨r.result, r.host, .getRange (fix.field "cell") :: r.calls⟩

/-- `fixes.forEach(fix => ...)`: the fixes in order, up to the first throw. -/
def forEachFix {σ : Type} (api : SheetApi σ) : List Json → σ → Ran σ Unit
  | [], s => ⟨.ok (), s, []⟩
  | fix :: rest, s =>
    let r := applyFix api fix s
    match r.result with
    | .error e => ⟨.error e, r.host, r.calls⟩
    | .ok () =>
      let t := forEachFix api rest r.host
      ⟨t.result, t.host, r.calls ++ t.calls⟩

/-- The object `{ success: false, error: error.message }`. -/
def failureResult (e : JsError) : Json :=
  .obj [(units "success", .bool false), (units "error", .str (units e.message))]

/-- The object `{ success: true, fixedCount: n }`. -/
def fixedResult (n : Nat) : Json :=
  .obj [(units "success", .bool true), (units "fixedCount", .num false n 0)]

/-- The object `{ success: true }`. -/
def successResult : Json :=
  .obj [(units "success", .bool true)]

/-- `applyFixes(fixes, rangeData)` of injected.js: the value it returns, the host
state it leaves and the calls it made.  `fixes.forEach` is there only on an
array. -/
def applyFixes {σ : Type} (api : SheetApi σ) (fixes : Option Json) (s : σ) :
    Json × σ × List HostCall :=
  match api.openSheet s with
  | .error e => (failureResult e, s, [.openSheet])
  | .ok () =>
    match fixes with
    | some (.arr items) =>
      let r := forEachFix api items s
      match r.result with
      | .error e => (failureResult e, r.host, .openSheet :: r.calls)
      | .ok () =>
        match api.flush r.host with
        | .error e => (failureResult e, r.host, .openSheet :: (r.calls ++ [.flush]))
        | .ok s' => (fixedResult items.length, s', .openSheet :: (r.calls ++ [.flush]))
    | _ => (failureResult typeError, s, [.openSheet])

/-- `if (targetCell) range = sheet.getRange(targetCell) else range =
sheet.getActiveRange()`; the range may be `null`. -/
def targetRange {σ : Type} (api : SheetApi σ) (targetCell : Option Json) (s : σ) :
    Except JsError (Option Range) × List HostCall :=
  if isTruthy targetCell then
    match api.getRange s targetCell with
    | .error e => (.error e, [.getRange targetCell])
    | .ok r => (.ok (some r), [.getRange targetCell])
  else (.ok (api.getActiveRange s), [.getActiveRange])

/-- The double nearest to an integer, ties to the even mantissa: the integer
itself below `2^53` in magnitude, a multiple of a power of two above.  (The
overflow to `Infinity` beyond the largest double is not modelled.) -/
def roundDouble (n : Int) : Int :=
  let a := n.natAbs
  if a < 2 ^ 53 then n
  else
    let e := Nat.log2 a - 52
    let q := a / 2 ^ e
    let r := a % 2 ^ e
    let up := decide (2 ^ (e - 1) < r) || (decide (r = 2 ^ (e - 1)) && decide (q % 2 = 1))
    let m := if up then q + 1 else q
    if n < 0 then -((m * 2 ^ e : Nat) : Int) else ((m * 2 ^ e : Nat) : Int)

/-- `lastRow - range.getRow() + 1` in the arithmetic of doubles. -/
def fillRows (lastRow row : Int) : Int :=
  roundDouble (roundDouble (lastRow - row) + 1)

/-- The block `if (useAutofill && range.getNumRows() === 1) { ... }`. -/
def autofillStep {σ : Type} (api : SheetApi σ) (range : Range) (useAutofill : Option Json)
    (s : σ) : Ran σ Unit :=
  if isTruthy useAutofill && decide (range.numRows = 1) then
    if api.getLastRow s > range.row then
      let call := HostCall.getRangeAt range.row range.col
        (fillRows (api.getLastRow s) range.row) 1
      match api.getRangeAt s range.row range.col (fillRows (api.getLastRow s) range.row) 1 with
      | .error e => ⟨.error e, s, [call]⟩
      | .ok fillRange =>
        match api.autoFill s range fillRange with
        | .error e => ⟨.error e, s, [call, .autoFill range fillRange]⟩
        | .ok s' => ⟨.ok (), s', [call, .autoFill range fillRange]⟩
    else ⟨.ok (), s, []⟩
  else ⟨.ok (), s, []⟩

/-- `applyFormula(formula, targetCell, useAutofill)` of injected.js: the value it
returns, the host state it leaves and the calls it made. -/
def applyFormula {σ : Type} (api : SheetApi σ) (formula targetCell useAutofill : Option Json)
    (s : σ) : Json × σ × List HostCall :=
  match api.openSheet s with
  | .error e => (failureResult e, s, [.openSheet])
  | .ok () =>
    match targetRange api targetCell s with
    | (.error e, calls) => (failureResult e, s, .openSheet :: calls)
    | (.ok none, calls) => (failureResult typeError, s, .openSheet :: calls)
    | (.ok (some range), calls) =>
      match api.setFormula s range formula with
      | .error e => (failureResult e, s, .openSheet :: (calls ++ [.setFormula range formula]))
      | .ok s1 =>
        let r := autofillStep api range useAutofill s1
        match r.result with
        | .error e =>
          (failureResult e, r.host,
            .openSheet :: (calls ++ .setFormula range formula :: r.calls))
        | .ok () =>
          match api.flush r.host with
          | .error e =>
            (failureResult e, r.host,
              .openSheet :: (calls ++ .setFormula range formula :: (r.calls ++ [.flush])))
          | .ok s' =>
            (successResult, s',
              .openSheet :: (calls ++ .setFormula range formula :: (r.calls ++ [.flush])))

/-- The executor of injected.js over a sheet: the host state of the page is the
state of the sheet with the calls made so far; the two reading functions are
those of `reads`. -/
def sheetHost {σ : Type} (api : SheetApi σ) (reads : HostApi (σ × List HostCall)) :
    HostApi (σ × List HostCall) :=
  { getSelectedRange := reads.getSelectedRange
    getSheetContext := reads.getSheetContext
    applyFixes := fun fixes _ h =>
      let r := applyFixes api fixes h.1
      (r.1, (r.2.1, h.2 ++ r.2.2))
    applyFormula := fun formula targetCell useAutofill h =>
      let r := applyFormula api formula targetCell useAutofill h.1
      (r.1, (r.2.1, h.2 ++ r.2.2)) }

/-- One host write per fix, in list order, in the words of the claim: from the
host state `s` each fix, a record and not `null`, has the range of `fix.cell`
looked up and `fix.newValue` written to it, as a formula when `fix.type` is
`formula_error` or `formula` and as a value for every other type, each call
succeeding; `t` is the host state after the last write and `calls` are the
calls made. -/
def WritesInOrder {σ : Type} (api : SheetApi σ) : List Json → σ → σ → List HostCall → Prop
  | [], s, t, calls => t = s ∧ calls = []
  | fix :: rest, s, t, calls =>
    fix ≠ .null ∧
    ∃ cell s1 later, api.getRange s (fix.field "cell") = .ok cell ∧
      (((fix.field "type" = some (.str (units "formula_error")) ∨
            fix.field "type" = some (.str (units "formula"))) ∧
          api.setFormula s cell (fix.field "newValue") = .ok s1 ∧
          calls = .getRange (fix.field "cell") ::
            .setFormula cell (fix.field "newValue") :: later) ∨
        (¬ (fix.field "type" = some (.str (units "formula_error")) ∨
            fix.field "type" = some (.str (units "formula"))) ∧
          api.setValue s cell (fix.field "newValue") = .ok s1 ∧
          calls = .getRange (fix.field "cell") ::
            .setValue cell (fix.field "newValue") :: later)) ∧
      WritesInOrder api rest s1 t later

/-- The write that `applyFixes` chooses for a fix on the range found for it. -/
def fixWrite (fix : Json) (cell : Range) : HostCall :=
  if isFormulaType (fix.field "type") then .setFormula cell (fix.field "newValue")
  else .setValue cell (fix.field "newValue")

/-- A sheet for examples: its state is the list of the writes applied; `B1`,
`A2` and `C5` are the addresses it knows, it takes as a formula only a text
that begins with `=`, the active range is `C3`, and its last row is 10. -/
def exampleSheet : SheetApi (List HostCall) :=
  { openSheet := fun _ => .ok ()
    getRange := fun _ a1 =>
      match a1 with
      | some (.str us) =>
        if us = units "B1" then .ok ⟨1, 2, 1, 1⟩
        else if us = units "A2" then .ok ⟨2, 1, 1, 1⟩
        else if us = units "C5" then .ok ⟨5, 3, 1, 1⟩
        else .error (mkError "Range not found")
      | _ => .error (mkError "Range not found")
    getActiveRange := fun _ => some ⟨3, 3, 1, 1⟩
    setFormula := fun s r f =>
      match f with
      | some (.str us) =>
        if us.head? = some 61 then .ok (s ++ [.setFormula r f])
        else .error (mkError "Invalid formula")
      | _ => .error (mkError "Invalid formula")
    setValue := fun s r v => .ok (s ++ [.setValue r v])
    getLastRow := fun _ => 10
    getRangeAt := fun _ row col numRows numCols => .ok ⟨row, col, numRows, numCols⟩
    autoFill := fun s a b => .ok (s ++ [.autoFill a b])
    flush := fun s => .ok s }

/-- A fix record `{cell, type, newValue}` for examples. -/
def exampleFix (cell type newValue : String) : Json :=
  .obj [(units "cell", .str (units cell)), (units "type", .str (units type)),
    (units "newValue", .str (units newValue))]

/-- What `showNotification` is called with. -/
inductive Notice where
  /-- The text `Applied n fixes` with its check mark, `n` being the value of
  `fixes.length` (`none` is `undefined`). -/
  | appliedFixes (length : Option Json)
  /-- The text `Formula applied` with its check mark. -/
  | formulaApplied

/-- The number `n` as a value. -/
def Json.ofNat (n : Nat) : Json := .num false n 0

/-- `fixes.length` as the template of the notification reads it: reading it on
`null` throws; it is the length of an array or of a string, the member `length`
of an object (whose conversion to a string may throw), `undefined` otherwise. -/
def fixesLength (fixes : Json) : Except JsError (Option Json) :=
  match fixes with
  | .null => .error typeError
  | .arr items => .ok (some (Json.ofNat items.length))
  | .str us => .ok (some (Json.ofNat us.length))
  | .obj members =>
    if interpolates (Json.lookupKey (units "length") members) then
      .ok (Json.lookupKey (units "length") members)
    else .error typeError
  | _ => .ok none

/-- The `applyFixes(fixes, rangeData)` of content.js: the request is sent without
a callback, then the notification is shown. -/
def Content.applyFixes {σ : Type} (fixes rangeData : Json) (w : World σ) :
    World σ × List Notice :=
  let w' := injectAndExecute "applyFixes" none
    (some (.obj [(units "fixes", fixes), (units "rangeData", rangeData)])) w
  match fixesLength fixes with
  | .error _ => (w', [])
  | .ok n => (w', [.appliedFixes n])

/-- The `applyFormula(formula, targetCell, useAutofill)` of content.js. -/
def Content.applyFormula {σ : Type} (formula targetCell useAutofill : Json) (w : World σ) :
    World σ × List Notice :=
  (injectAndExecute "applyFormula" none
    (some (.obj [(units "formula", formula), (units "targetCell", targetCell),
      (units "useAutofill", useAutofill)])) w, [.formulaApplied])

end AiSheets

/-! ## Facts about `JSON.parse` -/

namespace AiSheets
namespace JSONParse

theorem run_append (s : PState) (a b : List Char) : run s (a ++ b) = run (run s a) b := by
  simp [run, List.foldl_append]

theorem run_error (xs : List Char) : run .error xs = .error := by
  induction xs with
  | nil => rfl
  | cons c r ih => simpa [run, step] using ih

theorem blank_of_isJsSpace {c : Char} (h : isJsSpace c = true) : Blank c := by
  refine ⟨?_, ?_, ?_, ?_, ?_, ?_, ?_, ?_, ?_, ?_, ?_, ?_, ?_, ?_, ?_, ?_, ?_, ?_, ?_, ?_, ?_, ?_, ?_⟩
  · simp only [isJsSpace, Bool.or_eq_true, Bool.and_eq_true, beq_iff_eq, decide_eq_true_eq] at h
    simp only [digit?]
    rw [if_neg]
    omega
  all_goals (rintro rfl; revert h; decide)

theorem finish_pushValue_cons (f : Frame) (rest : List Frame) (v : Json) :
    finish (pushValue (f :: rest) v) = none := by
  cases f with
  | arr items => rfl
  | obj ms k => cases k <;> rfl

theorem startValue_blank {c : Char} (b : Blank c) (stack : List Frame) :
    startValue stack c = .error := by
  simp only [startValue, beq_iff_eq, b.nLBrace, b.nLBracket, b.nQuote, b.nMinus, b.nZero, b.nT,
    b.nF, b.nN, b.nDigit, if_false]

theorem afterStep_blank {c : Char} (b : Blank c) (stack : List Frame) :
    afterStep stack c = if isWs c then .run stack .afterValue else .error := by
  unfold afterStep
  split
  · rfl
  · split <;> simp only [beq_iff_eq, b.nComma, b.nRBracket, b.nRBrace, if_false]

theorem literalStep_blank {c : Char} (b : Blank c) (stack : List Frame) (l : Lit) :
    literalStep stack l c = .error := by
  cases l <;>
    simp only [literalStep, beq_iff_eq, b.nR, b.nU, b.nE, b.nA, b.nL, b.nS, if_false]

theorem finish_run_cons (f : Frame) (rest : List Frame) (pos : Pos) :
    finish (.run (f :: rest) pos) = none := by
  cases pos <;> rfl

theorem finish_run_inString (stack : List Frame) (acc : List Nat) (esc : Esc) :
    finish (.run stack (.inString acc esc)) = none := by
  cases stack <;> rfl

theorem finish_stringStep_blank {c : Char} (b : Blank c) (stack : List Frame) (acc : List Nat)
    (esc : Esc) : finish (stringStep stack acc esc c) = none := by
  cases esc with
  | plain =>
    simp only [stringStep, beq_iff_eq, b.nQuote, b.nBackslash, if_false]
    split
    · rfl
    · exact finish_run_inString _ _ _
  | backslash =>
    simp only [stringStep, beq_iff_eq, b.nQuote, b.nBackslash, b.nF, b.nN, b.nR, b.nT, b.nU,
      if_false]
    split
    · exact finish_run_inString _ _ _
    · split
      · exact finish_run_inString _ _ _
      · rfl
  | hex count val =>
    simp only [stringStep]
    split
    · split <;> exact finish_run_inString _ _ _
    · rfl

theorem numberStep_blank {c : Char} (b : Blank c) (stack : List Frame) (st : NumSt) (a : NumAcc) :
    numberStep stack st a c = if st.accepting then endNumber stack a c else .error := by
  cases st <;>
    simp only [numberStep, NumSt.accepting, Bool.or_eq_true, beq_iff_eq, b.nZero, b.nDot, b.nE, b.nBigE, b.nPlus,
      b.nMinus, b.nDigit, Bool.or_self, Bool.false_eq_true, if_false, if_true, or_self]

theorem finish_endNumber {c : Char} (b : Blank c) (stack : List Frame) (a : NumAcc) (v : Json)
    (hv : finish (endNumber stack a c) = some v) :
    stack = [] ∧ v = a.toJson ∧ isWs c = true := by
  cases stack with
  | nil =>
    simp only [endNumber, pushValue, doneStep] at hv
    split at hv
    · rename_i hw
      simp only [finish, Option.some.injEq] at hv
      exact ⟨rfl, hv.symm, hw⟩
    · simp [finish] at hv
  | cons f rest =>
    exfalso
    cases f with
    | arr items =>
      simp only [endNumber, pushValue, afterStep_blank b] at hv
      split at hv <;> simp [finish] at hv
    | obj ms k =>
      cases k with
      | none => simp [endNumber, pushValue, finish] at hv
      | some k =>
        simp only [endNumber, pushValue, afterStep_blank b] at hv
        split at hv <;> simp [finish] at hv

theorem finish_step_blank {c : Char} (b : Blank c) (st : PState) (v : Json)
    (hv : finish (step st c) = some v) : finish st = some v ∧ isWs c = true := by
  cases st with
  | error => simp [step, finish] at hv
  | done w =>
    simp only [step, doneStep] at hv
    split at hv
    · exact ⟨hv, by assumption⟩
    · simp [finish] at hv
  | run stack pos =>
    cases pos with
    | value =>
      simp only [step, startValue_blank b] at hv
      split at hv
      · exact ⟨hv, by assumption⟩
      · simp [finish] at hv
    | valueOrEnd =>
      simp only [step, startValue_blank b, beq_iff_eq, b.nRBracket, if_false] at hv
      split at hv
      · exact ⟨hv, by assumption⟩
      · simp [finish] at hv
    | keyOrEnd =>
      simp only [step, beq_iff_eq, b.nRBrace, b.nQuote, if_false] at hv
      split at hv
      · exact ⟨hv, by assumption⟩
      · simp [finish] at hv
    | key =>
      simp only [step, beq_iff_eq, b.nQuote, if_false] at hv
      split at hv
      · exact ⟨hv, by assumption⟩
      · simp [finish] at hv
    | colon =>
      simp only [step, beq_iff_eq, b.nColon, if_false] at hv
      split at hv
      · exact ⟨hv, by assumption⟩
      · simp [finish] at hv
    | afterValue =>
      simp only [step, afterStep_blank b] at hv
      split at hv <;> simp [finish] at hv
    | inString acc esc =>
      simp only [step, finish_stringStep_blank b] at hv
      simp at hv
    | inNumber ns a =>
      simp only [step, numberStep_blank b] at hv
      split at hv
      · rename_i hacc
        obtain ⟨rfl, rfl, hw⟩ := finish_endNumber b stack a v hv
        exact ⟨by simp [finish, hacc], hw⟩
      · simp [finish] at hv
    | inLiteral l =>
      simp only [step, literalStep_blank b] at hv
      simp [finish] at hv

theorem finish_run_space {ws : List Char} (h : ∀ c ∈ ws, isJsSpace c = true) (st : PState)
    (v : Json) (hv : finish (run st ws) = some v) : finish st = some v := by
  induction ws generalizing st with
  | nil => exact hv
  | cons c r ih =>
    have h1 := ih (fun d hd => h d (List.mem_cons_of_mem _ hd)) (step st c) hv
    exact (finish_step_blank (blank_of_isJsSpace (h c (List.mem_cons_self _ _))) st v h1).1

theorem run_init_space {ws rest : List Char} (h : ∀ c ∈ ws, isJsSpace c = true) (v : Json)
    (hv : finish (run init (ws ++ rest)) = some v) : finish (run init rest) = some v := by
  induction ws with
  | nil => exact hv
  | cons c r ih =>
    have b := blank_of_isJsSpace (h c (List.mem_cons_self _ _))
    have hstep : step init c = init ∨ step init c = .error := by
      simp only [init, step, startValue_blank b]
      split
      · exact Or.inl rfl
      · exact Or.inr rfl
    have hrun : run init (c :: r ++ rest) = run (step init c) (r ++ rest) := rfl
    rw [hrun] at hv
    rcases hstep with h1 | h1
    · rw [h1] at hv
      exact ih (fun d hd => h d (List.mem_cons_of_mem _ hd)) hv
    · rw [h1, run_error] at hv
      simp [finish] at hv

theorem blank_backtick : Blank '`' := by
  refine ⟨?_, ?_, ?_, ?_, ?_, ?_, ?_, ?_, ?_, ?_, ?_, ?_, ?_, ?_, ?_, ?_, ?_, ?_, ?_, ?_, ?_, ?_, ?_⟩
  all_goals decide

theorem finish_step_backtick (st : PState) : finish (step st '`') = none := by
  cases h : finish (step st '`') with
  | none => rfl
  | some v =>
    have := (finish_step_blank blank_backtick st v h).2
    exact absurd this (by decide)

end JSONParse

theorem jsonParse_append_backtick (xs : List Char) : jsonParse (xs ++ ['`']) = none := by
  simp only [jsonParse, JSONParse.run_append]
  exact JSONParse.finish_step_backtick _

theorem jsonParse_cons_j (xs : List Char) : jsonParse ('j' :: xs) = none := by
  have h : JSONParse.run JSONParse.init ('j' :: xs) = JSONParse.run .error xs := rfl
  simp only [jsonParse, h, JSONParse.run_error]
  rfl

theorem jsonParse_nil : jsonParse [] = none := rfl

namespace JSONParse

theorem bottomArr_cons (f : Frame) {stack : List Frame} (h : bottomArr stack = true) :
    bottomArr (f :: stack) = true := by
  cases stack with
  | nil => simp [bottomArr] at h
  | cons g rest => simpa [bottomArr] using h

theorem arrayBound_pushValue {stack : List Frame} (h : bottomArr stack = true) (v : Json) :
    ArrayBound (pushValue stack v) := by
  match stack, h with
  | [.arr _], _ => simp [pushValue, ArrayBound, bottomArr]
  | [.obj _ _], h => simp [bottomArr] at h
  | .arr _ :: g :: rest, h => simpa [pushValue, ArrayBound, bottomArr] using h
  | .obj _ none :: g :: rest, _ => simp [pushValue, ArrayBound]
  | .obj _ (some _) :: g :: rest, h => simpa [pushValue, ArrayBound, bottomArr] using h

theorem arrayBound_pushString {stack : List Frame} (h : bottomArr stack = true) (s : List Nat) :
    ArrayBound (pushString stack s) := by
  match stack, h with
  | [.arr _], _ => simp [pushString, pushValue, ArrayBound, bottomArr]
  | [.obj _ _], h => simp [bottomArr] at h
  | .arr _ :: g :: rest, h => simpa [pushString, pushValue, ArrayBound, bottomArr] using h
  | .obj _ none :: g :: rest, h => simpa [pushString, ArrayBound, bottomArr] using h
  | .obj _ (some _) :: g :: rest, h => simpa [pushString, pushValue, ArrayBound, bottomArr] using h

theorem arrayBound_close {f : Frame} {rest : List Frame} (h : bottomArr (f :: rest) = true)
    (v : Json) (hv : rest = [] → v.isArr = true) : ArrayBound (pushValue rest v) := by
  cases rest with
  | nil => simpa [pushValue, ArrayBound] using hv rfl
  | cons g rest => exact arrayBound_pushValue (by simpa [bottomArr] using h) v

theorem arrayBound_startValue {stack : List Frame} (h : bottomArr stack = true) (c : Char) :
    ArrayBound (startValue stack c) := by
  unfold startValue
  repeat' split
  all_goals first
    | exact bottomArr_cons _ h
    | exact h
    | trivial

theorem arrayBound_afterStep {stack : List Frame} (h : bottomArr stack = true) (c : Char) :
    ArrayBound (afterStep stack c) := by
  unfold afterStep
  repeat' split
  all_goals first
    | exact h
    | trivial
    | exact arrayBound_close h _ (fun _ => rfl)
    | (refine arrayBound_close h _ (fun hr => ?_); subst hr; simp [bottomArr] at h)

theorem arrayBound_endNumber {stack : List Frame} (h : bottomArr stack = true) (a : NumAcc)
    (c : Char) : ArrayBound (endNumber stack a c) := by
  have hp := arrayBound_pushValue h a.toJson
  unfold endNumber
  split
  · rename_i v hv
    rw [hv] at hp
    unfold doneStep
    split
    · exact hp
    · trivial
  · rename_i st hv
    rw [hv] at hp
    exact arrayBound_afterStep hp c
  · trivial

theorem arrayBound_stringStep {stack : List Frame} (h : bottomArr stack = true) (acc : List Nat)
    (esc : Esc) (c : Char) : ArrayBound (stringStep stack acc esc c) := by
  unfold stringStep
  repeat' split
  all_goals first
    | exact h
    | trivial
    | exact arrayBound_pushString h _

theorem arrayBound_numberStep {stack : List Frame} (h : bottomArr stack = true) (st : NumSt)
    (a : NumAcc) (c : Char) : ArrayBound (numberStep stack st a c) := by
  unfold numberStep
  repeat' split
  all_goals first
    | exact h
    | trivial
    | exact arrayBound_endNumber h _ _

theorem arrayBound_literalStep {stack : List Frame} (h : bottomArr stack = true) (l : Lit)
    (c : Char) : ArrayBound (literalStep stack l c) := by
  unfold literalStep
  repeat' split
  all_goals first
    | exact h
    | trivial
    | exact arrayBound_pushValue h _

theorem arrayBound_step {s : PState} (h : ArrayBound s) (c : Char) : ArrayBound (step s c) := by
  cases s with
  | error => trivial
  | done v =>
    simp only [step, doneStep]
    split
    · exact h
    · trivial
  | run stack pos =>
    have hb : bottomArr stack = true := h
    cases pos with
    | value =>
      simp only [step]
      split
      · exact h
      · exact arrayBound_startValue hb c
    | valueOrEnd =>
      simp only [step]
      repeat' split
      all_goals first
        | exact h
        | trivial
        | exact arrayBound_startValue hb c
        | exact arrayBound_close hb _ (fun _ => rfl)
    | keyOrEnd =>
      simp only [step]
      repeat' split
      all_goals first
        | exact h
        | trivial
        | (refine arrayBound_close hb _ (fun hr => ?_); subst hr; simp [bottomArr] at hb)
    | key =>
      simp only [step]
      repeat' split
      all_goals first
        | exact h
        | trivial
    | colon =>
      simp only [step]
      repeat' split
      all_goals first
        | exact h
        | trivial
    | afterValue => exact arrayBound_afterStep hb c
    | inString acc esc => exact arrayBound_stringStep hb acc esc c
    | inNumber st a => exact arrayBound_numberStep hb st a c
    | inLiteral l => exact arrayBound_literalStep hb l c

theorem arrayBound_run {s : PState} (h : ArrayBound s) (xs : List Char) :
    ArrayBound (run s xs) := by
  induction xs generalizing s with
  | nil => exact h
  | cons c r ih => exact ih (arrayBound_step h c)

theorem isArr_of_finish {s : PState} (h : ArrayBound s) {v : Json} (hv : finish s = some v) :
    v.isArr = true := by
  cases s with
  | error => simp [finish] at hv
  | done w =>
    simp only [finish, Option.some.injEq] at hv
    subst hv
    exact h
  | run stack pos =>
    cases stack with
    | nil => simp [ArrayBound, bottomArr] at h
    | cons f rest => simp [finish_run_cons] at hv

end JSONParse

/-- A text that begins with `[` parses to nothing but an array. -/
theorem isArr_of_jsonParse_bracket (xs : List Char) {v : Json}
    (h : jsonParse ('[' :: xs) = some v) : v.isArr = true := by
  have hrun : JSONParse.run JSONParse.init ('[' :: xs)
      = JSONParse.run (.run [.arr []] .valueOrEnd) xs := rfl
  rw [jsonParse, hrun] at h
  exact JSONParse.isArr_of_finish (JSONParse.arrayBound_run (by simp [JSONParse.ArrayBound, JSONParse.bottomArr]) xs) h

end AiSheets

/-! ## Facts about the regular expressions -/

namespace AiSheets

theorem isJsSpace_ne_backtick {c : Char} (h : isJsSpace c = true) : c ≠ '`' := by
  rintro rfl
  revert h
  decide

theorem fence_isPrefixOf_tail (y : Char) (ys sep post : List Char)
    (hs : ∀ c ∈ sep, isJsSpace c = true)
    (h : fence.isPrefixOf (y :: ys ++ ['`', '`']) = false) :
    fence.isPrefixOf (y :: ys ++ (sep ++ fence ++ post)) = false := by
  match ys, sep with
  | [], [] => simpa [fence, List.isPrefixOf] using h
  | [], sp :: sep =>
    have := isJsSpace_ne_backtick (hs sp (List.mem_cons_self _ _))
    simp [fence, List.isPrefixOf, Ne.symm this]
  | [z], [] => simpa [fence, List.isPrefixOf] using h
  | [z], sp :: sep =>
    have := isJsSpace_ne_backtick (hs sp (List.mem_cons_self _ _))
    simp [fence, List.isPrefixOf, Ne.symm this]
  | z :: w :: ys, _ => simpa [fence, List.isPrefixOf] using h

theorem hasFence_cons {c : Char} {r : List Char} (h : hasFence (c :: r) = false) :
    fence.isPrefixOf (c :: r) = false ∧ hasFence r = false := by
  simpa [hasFence] using h

theorem dropWhile_space_append {ws : List Char} (hs : ∀ c ∈ ws, isJsSpace c = true)
    (rest : List Char) : (ws ++ rest).dropWhile isJsSpace = rest.dropWhile isJsSpace := by
  induction ws with
  | nil => rfl
  | cons c r ih =>
    simp only [List.cons_append, List.dropWhile_cons, hs c (List.mem_cons_self _ _), if_true]
    exact ih (fun d hd => hs d (List.mem_cons_of_mem _ hd))

theorem closesFence_tail {sep : List Char} (hs : ∀ c ∈ sep, isJsSpace c = true)
    (post : List Char) : closesFence (sep ++ fence ++ post) = true := by
  simp only [closesFence, List.append_assoc, dropWhile_space_append hs]
  simp [fence, List.dropWhile, isJsSpace, List.isPrefixOf]

/-- A stretch that ends in a character outside `\s`, and that followed by two
backticks holds no fence, is not where `\s*` and the closing fence begin. -/
theorem closesFence_false (xs sep post : List Char) (hne : xs ≠ [])
    (hlast : ∀ c, xs.getLast? = some c → isJsSpace c = false)
    (hf : hasFence (xs ++ ['`', '`']) = false) (hs : ∀ c ∈ sep, isJsSpace c = true) :
    closesFence (xs ++ (sep ++ fence ++ post)) = false := by
  induction xs with
  | nil => exact absurd rfl hne
  | cons y ys ih =>
    obtain ⟨hp, hr⟩ := hasFence_cons hf
    by_cases hy : isJsSpace y = true
    · have hys : ys ≠ [] := by
        rintro rfl
        have := hlast y rfl
        simp [hy] at this
      have hl : ∀ c, ys.getLast? = some c → isJsSpace c = false := by
        intro c hc
        apply hlast
        obtain ⟨z, zs, rfl⟩ := List.exists_cons_of_ne_nil hys
        simpa [List.getLast?_cons_cons] using hc
      have := ih hys hl hr
      simpa [closesFence, List.dropWhile_cons, hy] using this
    · have h1 := fence_isPrefixOf_tail y ys sep post hs hp
      simpa [closesFence, List.dropWhile_cons, hy] using h1

theorem lazyCapture_core (xs sep post : List Char)
    (hlast : ∀ c, xs.getLast? = some c → isJsSpace c = false)
    (hf : hasFence (xs ++ ['`', '`']) = false) (hs : ∀ c ∈ sep, isJsSpace c = true) :
    lazyCapture (xs ++ (sep ++ fence ++ post)) = some xs := by
  induction xs with
  | nil =>
    have hc := closesFence_tail hs post
    cases hl : sep ++ fence ++ post with
    | nil => simp [fence] at hl
    | cons c r =>
      rw [hl] at hc
      simp [lazyCapture, hc]
  | cons y ys ih =>
    have hcf := closesFence_false (y :: ys) sep post (by simp) hlast hf hs
    obtain ⟨_, hr⟩ := hasFence_cons hf
    have hl : ∀ c, ys.getLast? = some c → isJsSpace c = false := by
      intro c hc
      apply hlast
      cases ys with
      | nil => simp at hc
      | cons z zs => simpa [List.getLast?_cons_cons] using hc
    have hcf' : closesFence (y :: (ys ++ (sep ++ fence ++ post))) = false := hcf
    have e : lazyCapture (y :: (ys ++ (sep ++ fence ++ post)))
        = (lazyCapture (ys ++ (sep ++ fence ++ post))).map (fun cap => y :: cap) := by
      rw [lazyCapture, if_neg]
      rw [hcf']
      exact Bool.false_ne_true
    rw [List.cons_append, e, ih hl hr]
    rfl

theorem skipJson_of_head {xs : List Char} (h : ∀ c, xs.head? = some c → c ≠ 'j') :
    skipJson xs = xs := by
  cases xs with
  | nil => rfl
  | cons c r =>
    have := h c rfl
    simp [skipJson, List.isPrefixOf, Ne.symm this]

theorem fenceBody_core (ann sep1 core sep2 post : List Char)
    (hann : ann = [] ∨ ann = ['j', 's', 'o', 'n'])
    (hs1 : ∀ c ∈ sep1, isJsSpace c = true) (hs2 : ∀ c ∈ sep2, isJsSpace c = true)
    (hne : core ≠ [])
    (hhead : ∀ c, core.head? = some c → isJsSpace c = false ∧ c ≠ 'j')
    (hlast : ∀ c, core.getLast? = some c → isJsSpace c = false)
    (hf : hasFence (core ++ ['`', '`']) = false) :
    fenceBody (ann ++ (sep1 ++ (core ++ (sep2 ++ fence ++ post)))) = some core := by
  obtain ⟨c, r, rfl⟩ := List.exists_cons_of_ne_nil hne
  have hc := hhead c rfl
  have hskip : skipJson (ann ++ (sep1 ++ (c :: r ++ (sep2 ++ fence ++ post))))
      = sep1 ++ (c :: r ++ (sep2 ++ fence ++ post)) := by
    rcases hann with rfl | rfl
    · apply skipJson_of_head
      intro d hd
      cases sep1 with
      | nil =>
        simp only [List.nil_append, List.cons_append, List.head?_cons, Option.some.injEq] at hd
        exact hd ▸ hc.2
      | cons e es =>
        simp only [List.nil_append, List.cons_append, List.head?_cons, Option.some.injEq] at hd
        have := hs1 e (List.mem_cons_self _ _)
        rintro rfl
        subst hd
        revert this
        decide
    · simp [skipJson, List.isPrefixOf]
  have hdrop : (sep1 ++ (c :: r ++ (sep2 ++ fence ++ post))).dropWhile isJsSpace
      = c :: r ++ (sep2 ++ fence ++ post) := by
    rw [dropWhile_space_append hs1]
    simp [List.dropWhile_cons, hc.1]
  rw [fenceBody, hskip, hdrop]
  exact lazyCapture_core (c :: r) sep2 post hlast hf hs2

theorem fenceMatch_skip (pre rest : List Char) (h : hasFence (pre ++ ['`', '`']) = false) :
    fenceMatch (pre ++ (fence ++ rest)) = fenceMatch (fence ++ rest) := by
  induction pre with
  | nil => rfl
  | cons c p ih =>
    obtain ⟨hp, hr⟩ := hasFence_cons h
    have h1 := fence_isPrefixOf_tail c p [] rest (by simp) hp
    have e : fenceMatch (c :: (p ++ (fence ++ rest))) = fenceMatch (p ++ (fence ++ rest)) := by
      rw [fenceMatch, if_neg]
      have h2 : fence.isPrefixOf (c :: (p ++ (fence ++ rest))) = false := by
        simpa using h1
      rw [h2]
      exact Bool.false_ne_true
    rw [List.cons_append, e]
    exact ih hr

theorem fenceMatch_fence (rest cap : List Char) (h : fenceBody rest = some cap) :
    fenceMatch (fence ++ rest) = some cap := by
  simp [fence, fenceMatch, List.isPrefixOf, h]

end AiSheets

namespace AiSheets

theorem trim_left (p : Char → Bool) (l : List Char) :
    ∃ a b, l = a ++ b ∧ (∀ x ∈ a, p x = true) ∧ (∀ c, b.head? = some c → p c = false) := by
  induction l with
  | nil => exact ⟨[], [], rfl, by simp, by simp⟩
  | cons x xs ih =>
    by_cases hx : p x = true
    · obtain ⟨a, b, rfl, ha, hb⟩ := ih
      refine ⟨x :: a, b, rfl, ?_, hb⟩
      intro y hy
      rcases List.mem_cons.1 hy with rfl | hy
      · exact hx
      · exact ha y hy
    · refine ⟨[], x :: xs, rfl, by simp, ?_⟩
      intro c hc
      simp only [List.head?_cons, Option.some.injEq] at hc
      subst hc
      simpa using hx

theorem trim_right (p : Char → Bool) (l : List Char) :
    ∃ a b, l = a ++ b ∧ (∀ x ∈ b, p x = true) ∧ (∀ c, a.getLast? = some c → p c = false) := by
  obtain ⟨a, b, h, ha, hb⟩ := trim_left p l.reverse
  refine ⟨b.reverse, a.reverse, ?_, ?_, ?_⟩
  · have := congrArg List.reverse h
    simpa using this
  · intro x hx
    exact ha x (List.mem_reverse.1 hx)
  · intro c hc
    apply hb
    simpa [List.getLast?_reverse] using hc

theorem hasFence_append_right (a b : List Char) (h : hasFence (a ++ b) = false) :
    hasFence b = false := by
  induction a with
  | nil => exact h
  | cons x xs ih => exact ih (hasFence_cons h).2

theorem isPrefixOf_append_of (f a b : List Char) (h : f.isPrefixOf a = true) :
    f.isPrefixOf (a ++ b) = true := by
  rw [List.isPrefixOf_iff_prefix] at h ⊢
  exact h.trans (List.prefix_append a b)

theorem hasFence_append_left (a b : List Char) (h : hasFence (a ++ b) = false) :
    hasFence a = false := by
  induction a with
  | nil => rfl
  | cons x xs ih =>
    obtain ⟨hp, hr⟩ := hasFence_cons h
    have h1 : fence.isPrefixOf (x :: xs) = false := by
      cases hq : fence.isPrefixOf (x :: xs) with
      | false => rfl
      | true =>
        have h2 : fence.isPrefixOf (x :: xs ++ b) = true :=
          isPrefixOf_append_of fence (x :: xs) b hq
        have h3 : fence.isPrefixOf (x :: xs ++ b) = false := hp
        rw [h3] at h2
        exact absurd h2 (by simp)
    simp [hasFence, h1, ih hr]

theorem hasFence_backticks (xs : List Char) (h : hasFence xs = false)
    (hlast : ∀ c, xs.getLast? = some c → c ≠ '`') : hasFence (xs ++ ['`', '`']) = false := by
  induction xs with
  | nil => decide
  | cons x xs ih =>
    obtain ⟨hp, hr⟩ := hasFence_cons h
    have hr' : hasFence (xs ++ ['`', '`']) = false := by
      apply ih hr
      intro c hc
      apply hlast
      cases xs with
      | nil => simp at hc
      | cons z zs => simpa [List.getLast?_cons_cons] using hc
    have hp' : fence.isPrefixOf (x :: xs ++ ['`', '`']) = false := by
      match xs, hlast, hp with
      | [], hlast, _ =>
        have := hlast x rfl
        simp [fence, List.isPrefixOf, Ne.symm this]
      | [z], hlast, _ =>
        have := hlast z rfl
        simp [fence, List.isPrefixOf, Ne.symm this]
      | z :: w :: r, _, hp => simpa [fence, List.isPrefixOf] using hp
    simp only [List.cons_append] at hp' ⊢
    simp [hasFence, hp', hr']

/-- A text that parses, stripped of the blank space around it, parses to the
same value; what is left neither begins with `j` nor ends in a backtick. -/
theorem jsonParse_trim (J : List Char) (v : Json) (h : jsonParse J = some v) :
    ∃ w1 core w2, J = w1 ++ (core ++ w2) ∧ (∀ c ∈ w1, isJsSpace c = true) ∧
      (∀ c ∈ w2, isJsSpace c = true) ∧ core ≠ [] ∧ jsonParse core = some v ∧
      (∀ c, core.head? = some c → isJsSpace c = false ∧ c ≠ 'j') ∧
      (∀ c, core.getLast? = some c → isJsSpace c = false ∧ c ≠ '`') := by
  obtain ⟨w1, b, rfl, hw1, hb⟩ := trim_left isJsSpace J
  obtain ⟨core, w2, rfl, hw2, hcore⟩ := trim_right isJsSpace b
  have h1 : jsonParse (core ++ w2) = some v := JSONParse.run_init_space hw1 v h
  have h2 : jsonParse core = some v := by
    rw [jsonParse, JSONParse.run_append] at h1
    exact JSONParse.finish_run_space hw2 _ v h1
  have hne : core ≠ [] := by
    rintro rfl
    simp [jsonParse_nil] at h2
  refine ⟨w1, core, w2, rfl, hw1, hw2, hne, h2, ?_, ?_⟩
  · intro c hc
    obtain ⟨d, r, rfl⟩ := List.exists_cons_of_ne_nil hne
    simp only [List.head?_cons, Option.some.injEq] at hc
    subst hc
    refine ⟨hb d rfl, ?_⟩
    rintro rfl
    simp [jsonParse_cons_j] at h2
  · intro c hc
    refine ⟨hcore c hc, ?_⟩
    rintro rfl
    have : core = core.dropLast ++ ['`'] := by
      have := List.dropLast_append_getLast? '`' hc
      exact this.symm
    rw [this, jsonParse_append_backtick] at h2
    simp at h2

end AiSheets

namespace AiSheets

theorem fenceMatch_fencedText (before ann sep1 J sep2 after : List Char) (v : Json)
    (hJ : jsonParse J = some v) (hJf : hasFence J = false)
    (hpre : hasFence (before ++ ['`', '`']) = false)
    (hann : ann = [] ∨ ann = ['j', 's', 'o', 'n'])
    (hs1 : ∀ c ∈ sep1, isJsSpace c = true) (hs2 : ∀ c ∈ sep2, isJsSpace c = true) :
    ∃ core, fenceMatch (fencedText before ann sep1 J sep2 after) = some core ∧
      jsonParse core = some v := by
  obtain ⟨w1, core, w2, rfl, hw1, hw2, hne, hcore, hhead, hlast⟩ := jsonParse_trim J v hJ
  refine ⟨core, ?_, hcore⟩
  have hcf : hasFence core = false :=
    hasFence_append_left core w2 (hasFence_append_right w1 (core ++ w2) hJf)
  have hf := hasFence_backticks core hcf (fun c hc => (hlast c hc).2)
  have hbody := fenceBody_core ann (sep1 ++ w1) core (w2 ++ sep2) after hann
    (by
      intro c hc
      rcases List.mem_append.1 hc with h | h
      · exact hs1 c h
      · exact hw1 c h)
    (by
      intro c hc
      rcases List.mem_append.1 hc with h | h
      · exact hw2 c h
      · exact hs2 c h)
    hne hhead (fun c hc => (hlast c hc).1) hf
  have e : fencedText before ann sep1 (w1 ++ (core ++ w2)) sep2 after
      = before ++ (fence ++ (ann ++ (sep1 ++ w1 ++ (core ++ (w2 ++ sep2 ++ fence ++ after))))) := by
    simp [fencedText, List.append_assoc]
  rw [e, fenceMatch_skip before _ hpre]
  exact fenceMatch_fence _ _ hbody

theorem dropWhile_ne_append (lb : Char) (before rest : List Char) (h : lb ∉ before) :
    (before ++ lb :: rest).dropWhile (fun c => c != lb) = lb :: rest := by
  induction before with
  | nil => simp [List.dropWhile_cons]
  | cons x xs ih =>
    have hx : x ≠ lb := fun e => h (e ▸ List.mem_cons_self _ _)
    have := ih (fun hm => h (List.mem_cons_of_mem _ hm))
    simp [List.dropWhile_cons, hx, this]

theorem spanMatch_eq (lb rb : Char) (before mid after : List Char) (h1 : lb ∉ before)
    (h2 : rb ∉ after) :
    spanMatch lb rb (before ++ lb :: (mid ++ rb :: after)) = some (lb :: (mid ++ [rb])) := by
  have hrev : (mid ++ rb :: after).reverse = after.reverse ++ rb :: mid.reverse := by simp
  have hd := dropWhile_ne_append rb after.reverse mid.reverse (by simpa using h2)
  simp only [spanMatch, dropWhile_ne_append lb before _ h1, hrev, hd]
  simp

theorem spanMatch_head (lb rb : Char) (cs region : List Char)
    (h : spanMatch lb rb cs = some region) : ∃ xs, region = lb :: xs := by
  unfold spanMatch at h
  split at h
  · simp at h
  · rename_i o rest ho
    have hlb : o = lb := by
      have := List.head_dropWhile_not (fun c => c != lb) cs (by simp [ho])
      simpa [ho] using this
    split at h
    · simp at h
    · simp only [Option.some.injEq] at h
      exact ⟨_, by rw [← h, hlb]⟩

end AiSheets

/-! ## The extraction pipeline and the validator: the claims -/

namespace AiSheets

/-- C1 (defect of the code). On the completion `I found [no errors] here.` no
strategy yields parseable JSON: the text is not JSON, it holds no fenced block,
and its bracketed region `[no errors]` is not JSON.  The extraction step of
`analyzeDataWithAI` does not return the empty array there: the `JSON.parse` of
the region, inside the `catch`, throws a `SyntaxError`. -/
theorem extractFixes_throws_on_unparseable_region :
    jsonParse "I found [no errors] here.".toList = none ∧
    fenceMatch "I found [no errors] here.".toList = none ∧
    arrayMatch "I found [no errors] here.".toList = some "[no errors]".toList ∧
    jsonParse "[no errors]".toList = none ∧
    extractFixes "I found [no errors] here.".toList = .error syntaxError :=
  ⟨rfl, rfl, rfl, rfl, rfl⟩

/-- C2 (defect of the code). The completion `{"formula": true}` is an object
whose `formula` is neither missing nor a string: `!result.formula` is false and
`result.formula.startsWith` is not a function, so `generateFormulaWithAI` fails
with a `TypeError`, not with the error `Invalid formula generated`. -/
theorem validateResult_type_error_on_truthy_non_string :
    extractFormula "\x7b\"formula\": true\x7d".toList
      = .ok (.obj [(units "formula", .bool true)]) ∧
    formulaFromContent "\x7b\"formula\": true\x7d".toList = .error typeError ∧
    typeError ≠ mkError "Invalid formula generated" :=
  ⟨rfl, rfl, by decide⟩

/-- C3, as stated, fails: the JSON array `["```"]`, enclosed in a fence annotated
`json`, is not recovered; the lazy group of the pattern ends at the backticks
inside the string and the parse of what it captured throws. -/
theorem fenced_json_with_backticks_is_lost :
    jsonParse "[\"```\"]".toList = some (.arr [.str [96, 96, 96]]) ∧
    extractFixes (fencedText [] "json".toList "\n".toList "[\"```\"]".toList "\n".toList [])
      = .error syntaxError ∧
    extractFormula (fencedText [] "json".toList "\n".toList "[\"```\"]".toList "\n".toList [])
      = .error syntaxError :=
  ⟨rfl, rfl, rfl⟩

/-- C3 (amended). For every JSON document `J` that holds no triple backtick, and
every completion made of prose, a fence optionally annotated `json`, blank
space, `J`, blank space, a fence and prose, in which the opening fence is the
first triple backtick and which is not itself valid JSON, both extraction steps
return exactly the value of `JSON.parse(J)`. -/
theorem fenced_json_is_recovered (before ann sep1 J sep2 after : List Char) (v : Json)
    (hJ : jsonParse J = some v) (hJf : hasFence J = false)
    (hpre : hasFence (before ++ ['`', '`']) = false)
    (hann : ann = [] ∨ ann = ['j', 's', 'o', 'n'])
    (hs1 : ∀ c ∈ sep1, isJsSpace c = true) (hs2 : ∀ c ∈ sep2, isJsSpace c = true)
    (hdirect : jsonParse (fencedText before ann sep1 J sep2 after) = none) :
    extractFixes (fencedText before ann sep1 J sep2 after) = .ok v ∧
    extractFormula (fencedText before ann sep1 J sep2 after) = .ok v := by
  obtain ⟨core, hm, hc⟩ := fenceMatch_fencedText before ann sep1 J sep2 after v hJ hJf hpre
    hann hs1 hs2
  constructor
  · simp [extractFixes, JSON.parse, hdirect, hm, hc]
  · simp [extractFormula, JSON.parse, hdirect, hm, hc]

/-- The scenario of the specification for C3: the formula descriptor in a fence
annotated `json`, after a line of prose. -/
theorem fenced_json_is_recovered_witness :
    extractFixes (fencedText "Here it is:\n".toList "json".toList "\n".toList
        "\x7b\"formula\":\"=SUM(A:A)\",\"useAutofill\":false\x7d".toList "\n".toList [])
      = .ok (.obj [(units "formula", .str (units "=SUM(A:A)")),
          (units "useAutofill", .bool false)]) ∧
    extractFormula (fencedText "Here it is:\n".toList "json".toList "\n".toList
        "\x7b\"formula\":\"=SUM(A:A)\",\"useAutofill\":false\x7d".toList "\n".toList [])
      = .ok (.obj [(units "formula", .str (units "=SUM(A:A)")),
          (units "useAutofill", .bool false)]) :=
  fenced_json_is_recovered _ _ _ _ _ _ _ rfl (by decide) (by decide) (Or.inr rfl)
    (by decide) (by decide) rfl

end AiSheets

namespace AiSheets

/-- C4, as stated, fails: `Fixes: [1] and [2]` is not JSON and holds no fence, and
its first balanced `[...]` region is `[1]`, which is valid JSON; but the pattern
runs on to the last `]`, what it matches is not JSON, and the extraction step
does not return the array `[1]` (nor would the empty default be that array).
Likewise with braces: in `Use {} or {}` the first balanced region `{}` is valid
JSON and the extraction step of `generateFormulaWithAI` does not return it. -/
theorem first_balanced_region_is_not_what_is_parsed :
    jsonParse "Fixes: [1] and [2]".toList = none ∧
    fenceMatch "Fixes: [1] and [2]".toList = none ∧
    firstBalanced '[' ']' "Fixes: [1] and [2]".toList = some "[1]".toList ∧
    jsonParse "[1]".toList = some (.arr [.num false 1 0]) ∧
    arrayMatch "Fixes: [1] and [2]".toList = some "[1] and [2]".toList ∧
    jsonParse "[1] and [2]".toList = none ∧
    extractFixes "Fixes: [1] and [2]".toList ≠ .ok (.arr [.num false 1 0]) ∧
    firstBalanced '{' '}' "Use \x7b\x7d or \x7b\x7d".toList = some "\x7b\x7d".toList ∧
    jsonParse "\x7b\x7d".toList = some (.obj []) ∧
    objectMatch "Use \x7b\x7d or \x7b\x7d".toList = some "\x7b\x7d or \x7b\x7d".toList ∧
    extractFormula "Use \x7b\x7d or \x7b\x7d".toList ≠ .ok (.obj []) := by
  refine ⟨rfl, rfl, rfl, rfl, rfl, rfl, ?_, rfl, rfl, rfl, ?_⟩
  · have h : extractFixes "Fixes: [1] and [2]".toList = .error syntaxError := rfl
    rw [h]
    exact fun e => by cases e
  · have h : extractFormula "Use \x7b\x7d or \x7b\x7d".toList = .error syntaxError := rfl
    rw [h]
    exact fun e => by cases e

/-- C4 (amended). For every completion that is not itself valid JSON and holds no
fenced block, the extraction step takes the region from the first opening
bracket (`[` for `analyzeDataWithAI`, `{` for `generateFormulaWithAI`) to the
last closing bracket of the text: whenever that region is valid JSON, the
result is its parse, whatever prose without an opening bracket precedes it and
whatever prose without a closing bracket follows it. -/
theorem bracket_region_runs_to_last_bracket :
    (∀ (before mid after : List Char) (v : Json), '[' ∉ before → ']' ∉ after →
      jsonParse (before ++ '[' :: (mid ++ ']' :: after)) = none →
      fenceMatch (before ++ '[' :: (mid ++ ']' :: after)) = none →
      jsonParse ('[' :: (mid ++ [']'])) = some v →
      extractFixes (before ++ '[' :: (mid ++ ']' :: after)) = .ok v) ∧
    (∀ (before mid after : List Char) (v : Json), '{' ∉ before → '}' ∉ after →
      jsonParse (before ++ '{' :: (mid ++ '}' :: after)) = none →
      fenceMatch (before ++ '{' :: (mid ++ '}' :: after)) = none →
      jsonParse ('{' :: (mid ++ ['}'])) = some v →
      extractFormula (before ++ '{' :: (mid ++ '}' :: after)) = .ok v) := by
  constructor
  · intro before mid after v h1 h2 hd hf hv
    have hm := spanMatch_eq '[' ']' before mid after h1 h2
    simp [extractFixes, JSON.parse, hd, hf, arrayMatch, hm, hv]
  · intro before mid after v h1 h2 hd hf hv
    have hm := spanMatch_eq '{' '}' before mid after h1 h2
    simp [extractFormula, JSON.parse, hd, hf, objectMatch, hm, hv]

/-- The amended C4 on a region that holds further brackets,
`Fixes: [[1], [2]] done`, and on the formula descriptor between prose. -/
theorem bracket_region_runs_to_last_bracket_witness :
    extractFixes ("Fixes: ".toList ++ '[' :: ("[1], [2]".toList ++ ']' :: " done".toList))
      = .ok (.arr [.arr [.num false 1 0], .arr [.num false 2 0]]) ∧
    extractFormula ("Use ".toList ++ '{' :: ("\"formula\":\"=A1\"".toList ++ '}' :: " now".toList))
      = .ok (.obj [(units "formula", .str (units "=A1"))]) :=
  ⟨bracket_region_runs_to_last_bracket.1 "Fixes: ".toList "[1], [2]".toList " done".toList _
      (by decide) (by decide) rfl rfl rfl,
   bracket_region_runs_to_last_bracket.2 "Use ".toList "\"formula\":\"=A1\"".toList
      " now".toList _ (by decide) (by decide) rfl rfl rfl⟩

/-- C5, as stated, fails: on the completion `{"fixes": []}`, which is valid JSON,
`analyzeDataWithAI` returns normally and the value is an object, not an array;
the handler answers 200 with that object as `fixes`. -/
theorem fixes_need_not_be_an_array :
    extractFixes "\x7b\"fixes\": []\x7d".toList = .ok (.obj [(units "fixes", .arr [])]) ∧
    (Json.obj [(units "fixes", .arr [])]).isArr = false ∧
    (FixTable.handler ⟨some "key", fun _ => .content "\x7b\"fixes\": []\x7d".toList⟩
      ⟨"POST", some (.obj [(units "values", .arr [])])⟩).response.status = 200 ∧
    (∃ v, (FixTable.handler ⟨some "key", fun _ => .content "\x7b\"fixes\": []\x7d".toList⟩
      ⟨"POST", some (.obj [(units "values", .arr [])])⟩).response.body = .fixes v ∧
      v.isArr = false) :=
  ⟨rfl, rfl, rfl, ⟨_, rfl, rfl⟩⟩

end AiSheets

namespace AiSheets

theorem isArr_of_extractFixes (content : List Char) (v : Json)
    (hd : jsonParse content = none) (hf : fenceMatch content = none)
    (h : extractFixes content = .ok v) : v.isArr = true := by
  simp only [extractFixes, JSON.parse, hd, hf] at h
  cases hm : arrayMatch content with
  | none =>
    simp only [hm, Except.ok.injEq] at h
    subst h
    rfl
  | some region =>
    obtain ⟨xs, rfl⟩ := spanMatch_head '[' ']' content region hm
    simp only [hm] at h
    cases hp : jsonParse ('[' :: xs) with
    | none => simp [hp] at h
    | some w =>
      simp only [hp, Except.ok.injEq] at h
      subst h
      exact isArr_of_jsonParse_bracket xs hp

theorem analyzeDataWithAI_ok (env : Env) (range : Option Json) (values v : Json)
    (h : (analyzeDataWithAI env range values).result = .ok v) :
    ∃ call content, env.fetch call = .content content ∧ extractFixes content = .ok v := by
  unfold analyzeDataWithAI at h
  split at h
  · simp at h
  · split at h
    · simp at h
    · cases hr : env.fetch ⟨.fixTable range values, 2000⟩ with
      | failed e => simp [hr, readContent] at h
      | notOk text => simp [hr, readContent] at h
      | badBody e => simp [hr, readContent] at h
      | content text =>
        simp only [hr, readContent] at h
        exact ⟨_, text, hr, h⟩

theorem handler_fixes (env : Env) (req : Request) (v : Json)
    (h : (FixTable.handler env req).response.body = .fixes v) :
    (FixTable.handler env req).response.status = 200 ∧
    ∃ call content, env.fetch call = .content content ∧ extractFixes content = .ok v := by
  unfold FixTable.handler at h ⊢
  simp only at h ⊢
  split
  · rename_i hm
    simp [hm] at h
  · rename_i hm
    split
    · rename_i hp
      simp [hm, hp] at h
    · rename_i hp
      simp only [hm, hp, if_false] at h
      split
      · rename_i hd
        simp [hd] at h
      · rename_i range values hd
        simp only [hd] at h
        split
        · rename_i items
          simp only at h
          split
          · rename_i fixes hres
            simp only [hres, Body.fixes.injEq] at h
            subst h
            exact ⟨rfl, analyzeDataWithAI_ok env range _ _ hres⟩
          · rename_i e hres
            simp [hres] at h
        · simp at h

/-- C5 (amended). The value `analyzeDataWithAI` returns is an array whenever the
completion is not itself valid JSON and holds no fenced block (it then comes
from the bracketed region or is the empty default).  The `fixes` of a response
of `/fix-table` go with status 200 and are the value extracted from the
completion of the provider, so they are an array under the same condition; a
completion that is valid JSON, or that holds a fenced block, is returned in
whatever shape it has. -/
theorem fixes_are_an_array_outside_direct_and_fenced :
    (∀ (content : List Char) (v : Json), jsonParse content = none →
      fenceMatch content = none → extractFixes content = .ok v → v.isArr = true) ∧
    (∀ (env : Env) (req : Request) (v : Json),
      (FixTable.handler env req).response.body = .fixes v →
      (FixTable.handler env req).response.status = 200 ∧
      ∃ call content, env.fetch call = .content content ∧ extractFixes content = .ok v ∧
        (jsonParse content = none → fenceMatch content = none → v.isArr = true)) := by
  refine ⟨isArr_of_extractFixes, ?_⟩
  intro env req v h
  obtain ⟨hs, call, content, hf, he⟩ := handler_fixes env req v h
  exact ⟨hs, call, content, hf, he, fun hd hm => isArr_of_extractFixes content v hd hm he⟩

/-- The amended C5 on the completion `Fixes: [[1], [2]] done`, alone and behind
the handler. -/
theorem fixes_are_an_array_outside_direct_and_fenced_witness :
    (Json.arr [.arr [.num false 1 0], .arr [.num false 2 0]]).isArr = true ∧
    ((FixTable.handler ⟨some "key", fun _ => .content "Fixes: [[1], [2]] done".toList⟩
        ⟨"POST", some (.obj [(units "values", .arr [])])⟩).response.status = 200 ∧
      ∃ (call : ProviderCall) (content : List Char),
        (Env.mk (some "key") (fun _ => .content "Fixes: [[1], [2]] done".toList)).fetch call
          = ProviderReply.content content ∧
        extractFixes content = .ok (.arr [.arr [.num false 1 0], .arr [.num false 2 0]]) ∧
        (jsonParse content = none → fenceMatch content = none →
          (Json.arr [.arr [.num false 1 0], .arr [.num false 2 0]]).isArr = true)) :=
  ⟨fixes_are_an_array_outside_direct_and_fenced.1 "Fixes: [[1], [2]] done".toList
      (.arr [.arr [.num false 1 0], .arr [.num false 2 0]]) rfl rfl rfl,
   fixes_are_an_array_outside_direct_and_fenced.2
     ⟨some "key", fun _ => .content "Fixes: [[1], [2]] done".toList⟩
     ⟨"POST", some (.obj [(units "values", .arr [])])⟩
     (.arr [.arr [.num false 1 0], .arr [.num false 2 0]]) rfl⟩

end AiSheets

/-! ## The background listener and the endpoints: the claims -/

namespace AiSheets

theorem getProp_ok_of_ok {body : Option Json} {a : String} {x : Option Json}
    (h : getProp body a = .ok x) (b : String) : ∃ y, getProp body b = .ok y := by
  match body, h with
  | some (.obj ms), _ => exact ⟨_, rfl⟩
  | some (.bool _), _ => exact ⟨_, rfl⟩
  | some (.num _ _ _), _ => exact ⟨_, rfl⟩
  | some (.str _), _ => exact ⟨_, rfl⟩
  | some (.arr _), _ => exact ⟨_, rfl⟩

/-- C9. For every message whose `action` is `getApiResponse` the listener of
background.js returns `true` and causes `sendResponse` to be called exactly
once when `handleApiRequest` settles: with `{success: true, data: r}` when it
resolves to `r`, with `{success: false, error: e.message}` when it rejects with
`e`, and so with the text `API request failed: ` and the status text on a
non-success HTTP status; for every other message it sends no reply and does not
return `true`. -/
theorem onMessage_replies_once (fetch : Option Json → Option Json → ApiReply)
    (request : Option Json) :
    (getProp request "action" = .ok (some (.str (units "getApiResponse"))) →
      ∃ data, getProp request "data" = .ok data ∧
        (onMessage fetch request).returned = some true ∧
        (∀ r, handleApiRequest fetch data = .resolved r →
          (onMessage fetch request).replies = [.success r]) ∧
        (∀ e, handleApiRequest fetch data = .rejected e →
          (onMessage fetch request).replies = [.failure e.message]) ∧
        (∀ endpoint payload statusText, getProp data "endpoint" = .ok endpoint →
          getProp data "payload" = .ok payload → interpolates endpoint = true →
          fetch endpoint payload = .notOk statusText →
          (onMessage fetch request).replies
            = [.failure ("API request failed: " ++ statusText)])) ∧
    (getProp request "action" ≠ .ok (some (.str (units "getApiResponse"))) →
      (onMessage fetch request).returned = none ∧ (onMessage fetch request).replies = []) := by
  constructor
  · intro ha
    obtain ⟨data, hd⟩ := getProp_ok_of_ok ha "data"
    refine ⟨data, hd, ?_, ?_, ?_, ?_⟩
    · simp only [onMessage, ha, hd, if_true]
      cases handleApiRequest fetch data <;> rfl
    · intro r hr
      simp only [onMessage, ha, hd, if_true, hr]
    · intro e hr
      simp only [onMessage, ha, hd, if_true, hr]
    · intro endpoint payload statusText he hp hi hf
      have hr : handleApiRequest fetch data
          = .rejected (mkError ("API request failed: " ++ statusText)) := by
        simp [handleApiRequest, he, hp, hi, hf]
      simp only [onMessage, ha, hd, if_true, hr]
      rfl
  · intro ha
    unfold onMessage
    split
    · exact ⟨rfl, rfl⟩
    · rename_i action haction
      split
      · rename_i a
        split
        · rename_i heq
          exact absurd (by rw [haction, heq]) ha
        · exact ⟨rfl, rfl⟩
      · exact ⟨rfl, rfl⟩

/-- C9 on two messages: a `getApiResponse` request for `fix-table` that meets a
non-success HTTP status, and a message with the action `ping`. -/
theorem onMessage_replies_once_witness :
    (∃ data,
      getProp (some (.obj [(units "action", .str (units "getApiResponse")),
        (units "data", .obj [(units "endpoint", .str (units "fix-table")),
          (units "payload", .obj [])])])) "data" = .ok data ∧
      (onMessage (fun _ _ => .notOk "Bad Gateway")
        (some (.obj [(units "action", .str (units "getApiResponse")),
          (units "data", .obj [(units "endpoint", .str (units "fix-table")),
            (units "payload", .obj [])])]))).returned = some true ∧
      (onMessage (fun _ _ => .notOk "Bad Gateway")
        (some (.obj [(units "action", .str (units "getApiResponse")),
          (units "data", .obj [(units "endpoint", .str (units "fix-table")),
            (units "payload", .obj [])])]))).replies
        = [.failure "API request failed: Bad Gateway"]) ∧
    ((onMessage (fun _ _ => .notOk "Bad Gateway")
        (some (.obj [(units "action", .str (units "ping"))]))).returned = none ∧
      (onMessage (fun _ _ => .notOk "Bad Gateway")
        (some (.obj [(units "action", .str (units "ping"))]))).replies = []) :=
  ⟨match (onMessage_replies_once (fun _ _ => .notOk "Bad Gateway")
      (some (.obj [(units "action", .str (units "getApiResponse")),
        (units "data", .obj [(units "endpoint", .str (units "fix-table")),
          (units "payload", .obj [])])]))).1 rfl with
    | ⟨data, hd, hr, _, hrej, _⟩ => ⟨data, hd, hr, by
        have e : data = some (.obj [(units "endpoint", .str (units "fix-table")),
            (units "payload", .obj [])]) := by
          have h2 : getProp (some (.obj [(units "action", .str (units "getApiResponse")),
              (units "data", .obj [(units "endpoint", .str (units "fix-table")),
                (units "payload", .obj [])])])) "data"
              = .ok (some (.obj [(units "endpoint", .str (units "fix-table")),
                (units "payload", .obj [])])) := rfl
          rw [h2] at hd
          injection hd with hd
          exact hd.symm
        subst e
        exact hrej (mkError "API request failed: Bad Gateway") rfl⟩,
   (onMessage_replies_once (fun _ _ => .notOk "Bad Gateway")
      (some (.obj [(units "action", .str (units "ping"))]))).2 (by
        intro h
        have h2 : getProp (some (.obj [(units "action", .str (units "ping"))])) "action"
            = .ok (some (.str (units "ping"))) := rfl
        rw [h2] at h
        injection h with h
        injection h with h
        injection h with h
        exact absurd h (by decide))⟩

end AiSheets

namespace AiSheets

theorem destructure_ok {body : Option Json} {a b : String} {x y : Option Json}
    (hx : getProp body a = .ok x) (hy : getProp body b = .ok y) :
    destructure body a b = .ok (x, y) := by
  simp [destructure, hx, hy]

theorem getProp_some (body : Json) (name : String) (h : body ≠ .null) :
    getProp (some body) name = .ok (body.field name) := by
  cases body with
  | null => exact absurd rfl h
  | bool b => rfl
  | num a b c => rfl
  | str us => rfl
  | arr items => rfl
  | obj ms => rfl

/-- C10, as stated, fails: a POST to `/fix-table` whose body has `values` but no
`range` is not answered 400; the handler has no guard on `range`, calls the
provider once and answers 200. -/
theorem missing_range_is_not_rejected :
    (FixTable.handler ⟨some "key", fun _ => .content "[]".toList⟩
      ⟨"POST", some (.obj [(units "values", .arr [])])⟩).response.status = 200 ∧
    (FixTable.handler ⟨some "key", fun _ => .content "[]".toList⟩
      ⟨"POST", some (.obj [(units "values", .arr [])])⟩).calls.length = 1 :=
  ⟨rfl, rfl⟩

/-- C10 (amended). For every POST request that carries a body (any value but
`null`): `/fix-table` answers 400 without a call to the provider when the body
has no `values` or `values` is not an array, and `/create-formula` answers 400
without a call to the provider when the body has no `description` or a falsy
one.  `range` has no guard: a body of `/fix-table` with an array of `values`
and no `range` is not answered 400, and with the key configured the provider is
called once. -/
theorem guarded_fields_are_rejected (env : Env) (req : Request) (body : Json)
    (hpost : req.method = "POST") (hbody : req.body = some body) (hnull : body ≠ .null) :
    ((∀ items, body.field "values" ≠ some (.arr items)) →
      (FixTable.handler env req).response.status = 400 ∧
      (FixTable.handler env req).calls = []) ∧
    ((∀ d, body.field "description" = some d → d.truthy = false) →
      (CreateFormula.handler env req).response.status = 400 ∧
      (CreateFormula.handler env req).calls = []) ∧
    (∀ items, body.field "range" = none → body.field "values" = some (.arr items) →
      env.keyMissing = false →
      (FixTable.handler env req).response.status ≠ 400 ∧
      (FixTable.handler env req).calls = [⟨.fixTable none (.arr items), 2000⟩]) := by
  have h1 : ¬ ("POST" = "OPTIONS") := by decide
  have hg : ∀ name, getProp req.body name = .ok (body.field name) := by
    intro name
    rw [hbody]
    exact getProp_some body name hnull
  refine ⟨?_, ?_, ?_⟩
  · intro hna
    simp only [FixTable.handler, hpost, h1, if_false, ne_eq, not_true_eq_false,
      destructure_ok (hg "range") (hg "values")]
    exact ⟨trivial, trivial⟩
  · intro hf
    simp only [CreateFormula.handler, hpost, h1, if_false, ne_eq, not_true_eq_false,
      destructure_ok (hg "description") (hg "context")]
    cases hd : body.field "description" with
    | none => exact ⟨rfl, rfl⟩
    | some d => simp [hf d hd]
  · intro items hr hv hk
    simp only [FixTable.handler, hpost, h1, if_false, ne_eq, not_true_eq_false,
      destructure_ok (hg "range") (hg "values"), hr, hv]
    have hcalls : (analyzeDataWithAI env none (.arr items)).calls
        = [⟨.fixTable none (.arr items), 2000⟩] := by
      simp only [analyzeDataWithAI, hk, interpolates]
      simp
      split <;> rfl
    cases hres : (analyzeDataWithAI env none (.arr items)).result with
    | ok v => simp [hres, hcalls]
    | error e => simp [hres, hcalls]

/-- The amended C10 on a body of `/fix-table` with a `range` and no `values`, and
on a body of `/create-formula` with a `context` and no `description`. -/
theorem guarded_fields_are_rejected_witness :
    ((FixTable.handler ⟨some "key", fun _ => .content "[]".toList⟩
        ⟨"POST", some (.obj [(units "range", .str (units "A1:B2"))])⟩).response.status = 400 ∧
      (FixTable.handler ⟨some "key", fun _ => .content "[]".toList⟩
        ⟨"POST", some (.obj [(units "range", .str (units "A1:B2"))])⟩).calls = []) ∧
    ((CreateFormula.handler ⟨some "key", fun _ => .content "[]".toList⟩
        ⟨"POST", some (.obj [(units "context", .obj [])])⟩).response.status = 400 ∧
      (CreateFormula.handler ⟨some "key", fun _ => .content "[]".toList⟩
        ⟨"POST", some (.obj [(units "context", .obj [])])⟩).calls = []) :=
  ⟨(guarded_fields_are_rejected ⟨some "key", fun _ => .content "[]".toList⟩
      ⟨"POST", some (.obj [(units "range", .str (units "A1:B2"))])⟩
      (.obj [(units "range", .str (units "A1:B2"))]) rfl rfl (by intro h; cases h)).1
      (by
        intro items h
        have e : (Json.obj [(units "range", .str (units "A1:B2"))]).field "values" = none := rfl
        rw [e] at h
        cases h),
   (guarded_fields_are_rejected ⟨some "key", fun _ => .content "[]".toList⟩
      ⟨"POST", some (.obj [(units "context", .obj [])])⟩
      (.obj [(units "context", .obj [])]) rfl rfl (by intro h; cases h)).2.1
      (by
        intro d h
        have e : (Json.obj [(units "context", .obj [])]).field "description" = none := rfl
        rw [e] at h
        cases h)⟩

end AiSheets

/-! ## The bridge: facts about the page -/

namespace AiSheets

variable {σ : Type}

theorem runExecutors_eq (api : HostApi σ) (functionName : String) (params : Option Json)
    (n : Nat) (w : World σ) :
    runExecutors api functionName params n w =
      { w with
        host := (replies api functionName params n w.host).2
        tasks := w.tasks ++ (replies api functionName params n w.host).1.map .deliver
        posted := w.posted ++ (replies api functionName params n w.host).1
        executed := w.executed ++ List.replicate n (functionName, params) } := by
  induction n generalizing w with
  | zero => cases w; simp [runExecutors, replies]
  | succ n ih =>
    rw [runExecutors, ih]
    cases w
    simp [replies, List.replicate_succ]

theorem executor_is_response (api : HostApi σ) (functionName : String) (params : Option Json)
    (host : σ) :
    (executor api functionName params host).1
      = .response functionName (executor api functionName params host).1.result
          (executor api functionName params host).1.error := by
  unfold executor
  split <;> rfl

theorem replies_are_responses (api : HostApi σ) (functionName : String) (params : Option Json)
    (n : Nat) (host : σ) :
    ∀ m ∈ (replies api functionName params n host).1,
      ∃ result error, m = .response functionName result error := by
  induction n generalizing host with
  | zero => simp [replies]
  | succ n ih =>
    intro m hm
    simp only [replies, List.mem_cons] at hm
    rcases hm with rfl | hm
    · exact ⟨_, _, executor_is_response api functionName params host⟩
    · exact ih _ m hm

theorem any_callback_false {callbacks : List (Nat × Json)} {cb : Nat}
    (h : ∀ c ∈ callbacks, c.1 < cb) : callbacks.any (fun c => c.1 == cb) = false := by
  rw [List.any_eq_false]
  intro c hc
  have := h c hc
  simp only [beq_iff_eq]
  omega

theorem awaitCallback_stale (api : HostApi σ) (cb : Nat) (stale rest : List PageTask)
    (fuel : Nat) (w : World σ) (ht : w.tasks = stale ++ rest) (hl : w.listeners = [])
    (hs : ∀ t ∈ stale, ∃ functionName result error,
      t = .deliver (.response functionName result error))
    (hc : ∀ c ∈ w.callbacks, c.1 < cb) :
    awaitCallback api cb (stale.length + fuel) w
      = awaitCallback api cb fuel { w with tasks := rest } := by
  induction stale generalizing w with
  | nil =>
    obtain ⟨host, scripts, executors, listeners, tasks, callbacks, posted, executed⟩ := w
    simp only [List.nil_append] at ht
    subst ht
    simp
  | cons t stale ih =>
    obtain ⟨functionName, result, error, rfl⟩ := hs t (List.mem_cons_self _ _)
    obtain ⟨host, scripts, executors, listeners, tasks, callbacks, posted, executed⟩ := w
    simp only at ht hl hc
    subst ht hl
    have hlen : (PageTask.deliver (.response functionName result error) :: stale).length + fuel
        = (stale.length + fuel) + 1 := by
      simp only [List.length_cons]
      omega
    rw [hlen, awaitCallback, any_callback_false hc]
    simp only [Bool.false_eq_true, if_false, runTask, List.cons_append, onResponse,
      List.filter_nil, List.map_nil, List.append_nil]
    exact ih _ rfl rfl (fun t ht => hs t (List.mem_cons_of_mem _ ht)) hc

theorem replies_succ (api : HostApi σ) (functionName : String) (params : Option Json)
    (n : Nat) (host : σ) :
    (replies api functionName params (n + 1) host).1
      = (executor api functionName params host).1 ::
        (replies api functionName params n (executor api functionName params host).2).1 := rfl

/-- One serialized call on a quiet page: the page it leaves. -/
theorem callAndAwait_eq (api : HostApi σ) (functionName : String) (params : Option Json)
    (cb : Nat) (w : World σ) (hq : Quiet w cb) :
    callAndAwait api functionName params cb w =
      { host := (replies api functionName params (w.executors + 1) w.host).2
        scripts := 0
        executors := w.executors + 1
        listeners := []
        tasks := (replies api functionName params w.executors
          (executor api functionName params w.host).2).1.map .deliver
        callbacks := w.callbacks ++ [(cb, (executor api functionName params w.host).1.result)]
        posted := w.posted ++ .execute functionName params ::
          (replies api functionName params (w.executors + 1) w.host).1
        executed := w.executed ++ List.replicate (w.executors + 1) (functionName, params) } := by
  obtain ⟨hl, hs, ht, hc⟩ := hq
  obtain ⟨host, scripts, executors, listeners, tasks, callbacks, posted, executed⟩ := w
  simp only at hl hs ht hc
  subst hl hs
  have hfuel : (tasks ++ [PageTask.load functionName (some cb) params]).length + 3
      = tasks.length + 4 := by
    simp only [List.length_append, List.length_singleton]
  simp only [callAndAwait, injectAndExecute, hfuel]
  rw [awaitCallback_stale api cb tasks [.load functionName (some cb) params] 4 _ rfl rfl ht hc]
  have hany := any_callback_false hc
  have hr := executor_is_response api functionName params host
  simp only [awaitCallback, hany, Bool.false_eq_true, if_false, runTask, onLoad,
    runExecutors_eq, replies_succ, List.nil_append, List.map_cons]
  rw [hr]
  simp [onResponse, Message.result, replies_succ]

theorem callAndAwait_quiet (api : HostApi σ) (functionName : String) (params : Option Json)
    (cb : Nat) (w : World σ) (hq : Quiet w cb) :
    Quiet (callAndAwait api functionName params cb w) (cb + 1) := by
  rw [callAndAwait_eq api functionName params cb w hq]
  obtain ⟨_, _, _, hc⟩ := hq
  refine ⟨rfl, rfl, ?_, ?_⟩
  · intro t ht
    simp only [List.mem_map] at ht
    obtain ⟨m, hm, rfl⟩ := ht
    obtain ⟨result, error, rfl⟩ := replies_are_responses api functionName params _ _ m hm
    exact ⟨_, _, _, rfl⟩
  · intro c hcm
    simp only [List.mem_append, List.mem_singleton] at hcm
    rcases hcm with h | rfl
    · exact Nat.lt_succ_of_lt (hc c h)
    · exact Nat.lt_succ_self _

theorem runTask_quiet (api : HostApi σ) (w : World σ) (first : Nat) (hq : Quiet w first) :
    runTask api w = { w with tasks := w.tasks.drop 1 } := by
  obtain ⟨hl, _, ht, _⟩ := hq
  obtain ⟨host, scripts, executors, listeners, tasks, callbacks, posted, executed⟩ := w
  simp only at hl ht
  subst hl
  cases tasks with
  | nil => rfl
  | cons t rest =>
    obtain ⟨functionName, result, error, rfl⟩ := ht t (List.mem_cons_self _ _)
    simp [runTask, onResponse]

theorem quiet_drop (w : World σ) (first n : Nat) (hq : Quiet w first) :
    Quiet { w with tasks := w.tasks.drop n } first := by
  obtain ⟨hl, hs, ht, hc⟩ := hq
  exact ⟨hl, hs, fun t h => ht t (List.mem_of_mem_drop h), hc⟩

theorem idle_quiet (api : HostApi σ) (n : Nat) (w : World σ) (first : Nat) (hq : Quiet w first) :
    idle api n w = { w with tasks := w.tasks.drop n } := by
  induction n generalizing w with
  | zero => simp [idle]
  | succ n ih =>
    rw [idle, runTask_quiet api w first hq, ih _ (quiet_drop w first 1 hq)]
    simp [Nat.add_comm]

theorem serialized_append (api : HostApi σ) (pauses : Nat → Nat)
    (a b : List (String × Option Json)) (first : Nat) (w : World σ) :
    serialized api pauses (a ++ b) first w
      = serialized api pauses b (first + a.length) (serialized api pauses a first w) := by
  induction a generalizing first w with
  | nil => rfl
  | cons c cs ih =>
    obtain ⟨functionName, params⟩ := c
    have h := ih (first + 1)
      (callAndAwait api functionName params first (idle api (pauses first) w))
    have e : first + 1 + cs.length = first + (cs.length + 1) := by omega
    rw [e] at h
    exact h

/-- A sequence of serialized calls on a quiet page: the page it leaves. -/
theorem serialized_spec (api : HostApi σ) (pauses : Nat → Nat)
    (calls : List (String × Option Json)) (first : Nat) (w : World σ) (hq : Quiet w first) :
    Quiet (serialized api pauses calls first w) (first + calls.length) ∧
    (serialized api pauses calls first w).callbacks
      = w.callbacks ++ expected api calls first w.executors w.host ∧
    (serialized api pauses calls first w).executors = w.executors + calls.length := by
  induction calls generalizing first w with
  | nil => exact ⟨hq, by simp [serialized, expected], rfl⟩
  | cons c cs ih =>
    obtain ⟨functionName, params⟩ := c
    have hi := idle_quiet api (pauses first) w first hq
    have hqi := quiet_drop w first (pauses first) hq
    rw [← hi] at hqi
    have hq' := callAndAwait_quiet api functionName params first _ hqi
    obtain ⟨h1, h2, h3⟩ := ih (first + 1) _ hq'
    have he := callAndAwait_eq api functionName params first _ hqi
    refine ⟨?_, ?_, ?_⟩
    · have : first + (cs.length + 1) = first + 1 + cs.length := by omega
      simpa only [serialized, List.length_cons, this] using h1
    · simp only [serialized, h2, expected]
      rw [he, hi]
      simp
    · simp only [serialized, h3, List.length_cons]
      rw [he, hi]
      simp only
      omega

theorem quiet_fresh (host : σ) : Quiet (World.fresh host) 0 := by
  refine ⟨rfl, rfl, ?_, ?_⟩
  · intro t ht
    simp [World.fresh] at ht
  · intro c hc
    simp [World.fresh] at hc

theorem expected_fst (api : HostApi σ) (calls : List (String × Option Json))
    (first executors : Nat) (host : σ) :
    (expected api calls first executors host).map Prod.fst = List.range' first calls.length := by
  induction calls generalizing first executors host with
  | nil => rfl
  | cons c cs ih =>
    obtain ⟨functionName, params⟩ := c
    simp [expected, ih, List.range'_succ]

/-! ## The bridge: the claims -/

/-- C6. In every sequence of serialized host-sandbox calls with callbacks, started
on a page where no caller is waiting, each call invokes its callback exactly
once and in the order of the calls, with the `result` that the executor
computed for the request of that very call; after the sequence no listener of a
caller is registered, and the queue holds no load and no request, only
responses that nobody waits for: no duplicate delivery, no result of an earlier
call delivered to a later one, no call left waiting. -/
theorem serialized_calls_deliver_once (api : HostApi σ) (pauses : Nat → Nat)
    (calls : List (String × Option Json)) (first : Nat) (w : World σ) (hq : Quiet w first) :
    (serialized api pauses calls first w).callbacks
      = w.callbacks ++ expected api calls first w.executors w.host ∧
    (expected api calls first w.executors w.host).map Prod.fst
      = List.range' first calls.length ∧
    (serialized api pauses calls first w).listeners = [] ∧
    (∀ t ∈ (serialized api pauses calls first w).tasks,
      ∃ functionName result error, t = .deliver (.response functionName result error)) := by
  obtain ⟨⟨hl, _, ht, _⟩, hc, _⟩ := serialized_spec api pauses calls first w hq
  exact ⟨hc, expected_fst api calls first w.executors w.host, hl, ht⟩

/-- C6 on three calls on a fresh page, the second started at once and the third
after two more tasks: the callbacks 0, 1, 2 run once each, the two reads of the
selection with the counts `0` and `1` of their own requests. -/
theorem serialized_calls_deliver_once_witness :
    (serialized countingHost (fun i => if i = 2 then 2 else 0)
        [("getSelectedRange", none), ("getSelectedRange", none), ("getSheetContext", none)]
        0 (World.fresh 0)).callbacks
      = [(0, .num false 0 0), (1, .num false 1 0), (2, .null)] ∧
    (serialized countingHost (fun i => if i = 2 then 2 else 0)
        [("getSelectedRange", none), ("getSelectedRange", none), ("getSheetContext", none)]
        0 (World.fresh 0)).listeners = [] := by
  have h := serialized_calls_deliver_once countingHost (fun i => if i = 2 then 2 else 0)
    [("getSelectedRange", none), ("getSelectedRange", none), ("getSheetContext", none)]
    0 (World.fresh 0) (quiet_fresh 0)
  exact ⟨h.1.trans rfl, h.2.2.1⟩

/-- C7, as stated, fails: on a request for `applyFixes` without `params` the
executor throws on `params.fixes` and posts a response with the message of the
error, but the listener of the caller hands `event.data.result` to the
callback, and that is `null`: the value the callback is invoked with carries
no error text. -/
theorem callback_value_carries_no_error_text :
    (dispatch countingHost "applyFixes" none 0).1 = .error typeError ∧
    (callAndAwait countingHost "applyFixes" none 0 (World.fresh 0)).posted
      = [.execute "applyFixes" none,
         .response "applyFixes" .null (some typeError.message)] ∧
    (callAndAwait countingHost "applyFixes" none 0 (World.fresh 0)).callbacks = [(0, .null)] :=
  ⟨rfl, rfl, rfl⟩

/-- C7 (amended). If the executor throws while handling an `AI_SHEETS_EXECUTE`
message, on a page that holds one executor listener, the bridge still answers
the caller: exactly one `AI_SHEETS_RESPONSE` with the same `functionName` is
posted, carrying the result `null` and `error` equal to the message of the
thrown error, the callback passed to `injectAndExecute` is invoked exactly
once, and the listener of the caller is removed.  The error text travels in the
response message. -/
theorem executor_error_is_answered (api : HostApi σ) (functionName : String)
    (params : Option Json) (host : σ) (e : JsError)
    (h : (dispatch api functionName params host).1 = .error e) :
    (callAndAwait api functionName params 0 (World.fresh host)).posted
      = [.execute functionName params, .response functionName .null (some e.message)] ∧
    (callAndAwait api functionName params 0 (World.fresh host)).callbacks.map Prod.fst = [0] ∧
    (callAndAwait api functionName params 0 (World.fresh host)).listeners = [] := by
  have he : (executor api functionName params host).1
      = .response functionName .null (some e.message) := by
    unfold executor
    cases hd : dispatch api functionName params host with
    | mk r host' =>
      rw [hd] at h
      simp only at h
      subst h
      rfl
  rw [callAndAwait_eq api functionName params 0 _ (quiet_fresh host)]
  simp [World.fresh, replies, he]

/-- The amended C7 on a request for `applyFormula` without `params`. -/
theorem executor_error_is_answered_witness :
    (callAndAwait countingHost "applyFormula" none 0 (World.fresh 0)).posted
      = [.execute "applyFormula" none,
         .response "applyFormula" .null (some typeError.message)] ∧
    (callAndAwait countingHost "applyFormula" none 0 (World.fresh 0)).callbacks.map Prod.fst
      = [0] ∧
    (callAndAwait countingHost "applyFormula" none 0 (World.fresh 0)).listeners = [] :=
  executor_error_is_answered countingHost "applyFormula" none 0 typeError rfl

/-- C8 (defect of the code). After any sequence of serialized calls on a fresh
page, followed by one more call, the document holds no injected script element,
yet every run of injected.js has left its executor listener: there are as many
as there were calls, and the host operation of the last call is run once by
each, that is as many times as there were calls. -/
theorem executor_listeners_accumulate (api : HostApi σ) (pauses : Nat → Nat)
    (init : List (String × Option Json)) (last : String × Option Json) (host : σ) :
    (serialized api pauses (init ++ [last]) 0 (World.fresh host)).scripts = 0 ∧
    (serialized api pauses (init ++ [last]) 0 (World.fresh host)).executors = init.length + 1 ∧
    (serialized api pauses (init ++ [last]) 0 (World.fresh host)).executed
      = (serialized api pauses init 0 (World.fresh host)).executed
        ++ List.replicate (init.length + 1) last := by
  obtain ⟨functionName, params⟩ := last
  obtain ⟨hq, _, hx⟩ := serialized_spec api pauses init 0 (World.fresh host) (quiet_fresh host)
  have hi := idle_quiet api (pauses (0 + init.length)) _ _ hq
  have hqi := quiet_drop _ _ (pauses (0 + init.length)) hq
  rw [← hi] at hqi
  have he := callAndAwait_eq api functionName params (0 + init.length) _ hqi
  have hs : serialized api pauses (init ++ [(functionName, params)]) 0 (World.fresh host)
      = callAndAwait api functionName params (0 + init.length)
          (idle api (pauses (0 + init.length)) (serialized api pauses init 0 (World.fresh host))) := by
    rw [serialized_append]
    rfl
  have hx' : (serialized api pauses init 0 (World.fresh host)).executors = init.length := by
    rw [hx]
    simp [World.fresh]
  rw [hs, he, hi]
  simp only [hx']
  exact ⟨trivial, trivial, trivial⟩

end AiSheets

/-! ## The host functions: facts and claims -/

namespace AiSheets

variable {σ : Type}

theorem writeFix_calls (api : SheetApi σ) (fix : Json) (cell : Range) (s : σ) :
    (writeFix api fix cell s).calls = [fixWrite fix cell] := by
  unfold writeFix fixWrite
  split
  · split <;> rfl
  · split <;> rfl

theorem writeFix_error_host (api : SheetApi σ) (fix : Json) (cell : Range) (s : σ) (e : JsError)
    (h : (writeFix api fix cell s).result = .error e) : (writeFix api fix cell s).host = s := by
  unfold writeFix at h ⊢
  by_cases ht : isFormulaType (fix.field "type") = true
  · simp only [ht, if_true] at h ⊢
    cases hs : api.setFormula s cell (fix.field "newValue") with
    | error e' => rfl
    | ok s' => simp [hs] at h
  · simp only [ht, if_false] at h ⊢
    cases hs : api.setValue s cell (fix.field "newValue") with
    | error e' => rfl
    | ok s' => simp [hs] at h

theorem applyFix_eq (api : SheetApi σ) (fix : Json) (s : σ) (hn : fix ≠ .null) :
    applyFix api fix s =
      match api.getRange s (fix.field "cell") with
      | .error e => ⟨.error e, s, [.getRange (fix.field "cell")]⟩
      | .ok cell =>
        ⟨(writeFix api fix cell s).result, (writeFix api fix cell s).host,
          .getRange (fix.field "cell") :: (writeFix api fix cell s).calls⟩ := by
  cases fix with
  | null => exact absurd rfl hn
  | bool b => rfl
  | num a b c => rfl
  | str us => rfl
  | arr items => rfl
  | obj ms => rfl

theorem applyFix_error_host (api : SheetApi σ) (fix : Json) (s : σ) (e : JsError)
    (h : (applyFix api fix s).result = .error e) : (applyFix api fix s).host = s := by
  by_cases hn : fix = .null
  · subst hn
    rfl
  · rw [applyFix_eq api fix s hn] at h ⊢
    cases hg : api.getRange s (fix.field "cell") with
    | error e' => rfl
    | ok cell =>
      simp only [hg] at h ⊢
      exact writeFix_error_host api fix cell s e h

theorem forEachFix_append_error (api : SheetApi σ) (before after : List Json) (fix : Json)
    (s : σ) (e : JsError) (hb : (forEachFix api before s).result = .ok ())
    (hf : (applyFix api fix (forEachFix api before s).host).result = .error e) :
    (forEachFix api (before ++ fix :: after) s).result = .error e ∧
    (forEachFix api (before ++ fix :: after) s).host = (forEachFix api before s).host ∧
    (forEachFix api (before ++ fix :: after) s).calls
      = (forEachFix api before s).calls
        ++ (applyFix api fix (forEachFix api before s).host).calls := by
  induction before generalizing s with
  | nil =>
    simp only [forEachFix, List.nil_append] at hf ⊢
    have hh := applyFix_error_host api fix s e hf
    simp [hf, hh]
  | cons b bs ih =>
    simp only [forEachFix, List.cons_append] at hb hf ⊢
    cases hr : (applyFix api b s).result with
    | error e' => simp [hr] at hb
    | ok u =>
      cases u
      simp only [hr] at hb hf ⊢
      obtain ⟨h1, h2, h3⟩ := ih (applyFix api b s).host hb hf
      simp [h1, h2, h3]

theorem applyFixes_error (api : SheetApi σ) (before after : List Json) (fix : Json) (s : σ)
    (e : JsError) (hopen : api.openSheet s = .ok ())
    (hb : (forEachFix api before s).result = .ok ())
    (hf : (applyFix api fix (forEachFix api before s).host).result = .error e) :
    applyFixes api (some (.arr (before ++ fix :: after))) s
      = (failureResult e, (forEachFix api before s).host,
          .openSheet :: ((forEachFix api before s).calls
            ++ (applyFix api fix (forEachFix api before s).host).calls)) := by
  obtain ⟨h1, h2, h3⟩ := forEachFix_append_error api before after fix s e hb hf
  simp only [applyFixes, hopen, h1, h2, h3]

theorem getProp_fixes (fixes rangeData : Json) :
    getProp (some (.obj [(units "fixes", fixes), (units "rangeData", rangeData)])) "fixes"
      = .ok (some fixes) ∧
    getProp (some (.obj [(units "fixes", fixes), (units "rangeData", rangeData)])) "rangeData"
      = .ok (some rangeData) :=
  ⟨rfl, rfl⟩

theorem content_applyFixes_fst {τ : Type} (fixes rangeData : Json) (w : World τ) :
    (Content.applyFixes fixes rangeData w).1
      = injectAndExecute "applyFixes" none
          (some (.obj [(units "fixes", fixes), (units "rangeData", rangeData)])) w := by
  unfold Content.applyFixes
  split <;> rfl

/-- The page after the `applyFixes` of content.js on a fresh page and the three
tasks it causes: the load, the request and the response. -/
theorem content_applyFixes_run (api : SheetApi σ) (reads : HostApi (σ × List HostCall))
    (fixes rangeData : Json) (s : σ) :
    (idle (sheetHost api reads) 3
        (Content.applyFixes fixes rangeData (World.fresh (s, []))).1).callbacks = [] ∧
    (idle (sheetHost api reads) 3
        (Content.applyFixes fixes rangeData (World.fresh (s, []))).1).posted
      = [.execute "applyFixes"
          (some (.obj [(units "fixes", fixes), (units "rangeData", rangeData)])),
         .response "applyFixes" (applyFixes api (some fixes) s).1 none] ∧
    (idle (sheetHost api reads) 3
        (Content.applyFixes fixes rangeData (World.fresh (s, []))).1).host
      = ((applyFixes api (some fixes) s).2.1, (applyFixes api (some fixes) s).2.2) := by
  have hd : dispatch (sheetHost api reads) "applyFixes"
      (some (.obj [(units "fixes", fixes), (units "rangeData", rangeData)])) (s, [])
      = (.ok (applyFixes api (some fixes) s).1,
          ((applyFixes api (some fixes) s).2.1, [] ++ (applyFixes api (some fixes) s).2.2)) := by
    simp [dispatch, (getProp_fixes fixes rangeData).1, (getProp_fixes fixes rangeData).2,
      sheetHost]
  rw [content_applyFixes_fst]
  simp [idle, runTask, injectAndExecute, World.fresh, onLoad, runExecutors, executor, hd,
    onResponse]

/-- C11 (defect of the code). When the host write of a fix throws after the
writes of the fixes before it succeeded, `applyFixes` of injected.js does not
throw: it returns `{success: false, error: message}`, the host is left as the
earlier writes made it, and the calls made end with the one that threw, so no
write is attempted for a later fix.  But the `applyFixes` of content.js sends
the request without a callback and shows `Applied n fixes` at once: the
response that carries the failure reaches no listener, and the user is shown a
successful application. -/
theorem applyFixes_failure_is_shown_as_success (api : SheetApi σ)
    (reads : HostApi (σ × List HostCall)) (before after : List Json) (fix rangeData : Json)
    (s : σ) (e : JsError) (hopen : api.openSheet s = .ok ())
    (hb : (forEachFix api before s).result = .ok ())
    (hf : (applyFix api fix (forEachFix api before s).host).result = .error e) :
    applyFixes api (some (.arr (before ++ fix :: after))) s
      = (failureResult e, (forEachFix api before s).host,
          .openSheet :: ((forEachFix api before s).calls
            ++ (applyFix api fix (forEachFix api before s).host).calls)) ∧
    (Content.applyFixes (.arr (before ++ fix :: after)) rangeData
        (World.fresh ((s, []) : σ × List HostCall))).2
      = [.appliedFixes (some (Json.ofNat (before.length + (after.length + 1))))] ∧
    (idle (sheetHost api reads) 3
        (Content.applyFixes (.arr (before ++ fix :: after)) rangeData
          (World.fresh (s, []))).1).callbacks = [] ∧
    (idle (sheetHost api reads) 3
        (Content.applyFixes (.arr (before ++ fix :: after)) rangeData
          (World.fresh (s, []))).1).posted
      = [.execute "applyFixes"
          (some (.obj [(units "fixes", .arr (before ++ fix :: after)),
            (units "rangeData", rangeData)])),
         .response "applyFixes" (failureResult e) none] := by
  have he := applyFixes_error api before after fix s e hopen hb hf
  obtain ⟨h1, h2, _⟩ := content_applyFixes_run api reads (.arr (before ++ fix :: after))
    rangeData s
  refine ⟨he, ?_, h1, ?_⟩
  · simp [Content.applyFixes, fixesLength]
  · rw [h2, he]

/-- C11 on three fixes for the example sheet, the second of which is a formula
without its `=`: the first write stays, the third is not attempted, and the
notification is `Applied 3 fixes`. -/
theorem applyFixes_failure_is_shown_as_success_witness :
    applyFixes exampleSheet
        (some (.arr ([exampleFix "B1" "data_type" "7"]
          ++ exampleFix "A2" "formula_error" "SUM(" :: [exampleFix "C5" "duplicate" "x"]))) []
      = (failureResult (mkError "Invalid formula"),
          [.setValue ⟨1, 2, 1, 1⟩ (some (.str (units "7")))],
          [.openSheet, .getRange (some (.str (units "B1"))),
            .setValue ⟨1, 2, 1, 1⟩ (some (.str (units "7"))),
            .getRange (some (.str (units "A2"))),
            .setFormula ⟨2, 1, 1, 1⟩ (some (.str (units "SUM(")))]) ∧
    (Content.applyFixes
        (.arr ([exampleFix "B1" "data_type" "7"]
          ++ exampleFix "A2" "formula_error" "SUM(" :: [exampleFix "C5" "duplicate" "x"]))
        .null (World.fresh (([], []) : List HostCall × List HostCall))).2
      = [.appliedFixes (some (Json.ofNat 3))] := by
  have h := applyFixes_failure_is_shown_as_success exampleSheet
    ⟨fun h => (.null, h), fun h => (.null, h), fun _ _ h => (.null, h),
      fun _ _ _ h => (.null, h)⟩
    [exampleFix "B1" "data_type" "7"] [exampleFix "C5" "duplicate" "x"]
    (exampleFix "A2" "formula_error" "SUM(") .null [] (mkError "Invalid formula") rfl rfl rfl
  exact ⟨h.1.trans rfl, h.2.1.trans rfl⟩

theorem isFormulaType_iff (type : Option Json) :
    isFormulaType type = true ↔
      (type = some (.str (units "formula_error")) ∨ type = some (.str (units "formula"))) := by
  cases type with
  | none => simp [isFormulaType]
  | some v => cases v <;> simp [isFormulaType]

theorem forEachFix_of_writes (api : SheetApi σ) (fixes : List Json) (s t : σ)
    (calls : List HostCall) (h : WritesInOrder api fixes s t calls) :
    forEachFix api fixes s = ⟨.ok (), t, calls⟩ ∧ calls.length = 2 * fixes.length := by
  induction fixes generalizing s calls with
  | nil =>
    obtain ⟨rfl, rfl⟩ := h
    exact ⟨rfl, rfl⟩
  | cons fix rest ih =>
    obtain ⟨hn, cell, s1, later, hg, hw, hrest⟩ := h
    obtain ⟨ih1, ih2⟩ := ih s1 later hrest
    have ha : applyFix api fix s
        = ⟨.ok (), s1, [.getRange (fix.field "cell"), fixWrite fix cell]⟩ ∧
        calls = .getRange (fix.field "cell") :: fixWrite fix cell :: later := by
      rw [applyFix_eq api fix s hn, hg]
      rcases hw with ⟨ht, hs, hc⟩ | ⟨ht, hs, hc⟩
      · have hb := (isFormulaType_iff _).2 ht
        simp [writeFix, fixWrite, hb, hs, hc]
      · have hb : isFormulaType (fix.field "type") = false := by
          cases hq : isFormulaType (fix.field "type") with
          | false => rfl
          | true => exact absurd ((isFormulaType_iff _).1 hq) ht
        simp [writeFix, fixWrite, hb, hs, hc]
    obtain ⟨ha1, ha2⟩ := ha
    constructor
    · simp [forEachFix, ha1, ih1, ha2]
    · rw [ha2]
      simp only [List.length_cons, ih2]
      omega

/-- C12, as stated, fails: on a sheet whose `SpreadsheetApp.flush()` throws, both
host writes of a list of two fixes succeed and stay applied, yet `applyFixes`
returns `{success: false, error}` and not `{success: true, fixedCount: 2}`: the
flush is inside the `try`. -/
theorem applyFixes_fails_when_flush_throws :
    (applyFixes { exampleSheet with flush := fun _ => .error (mkError "Service error") }
        (some (.arr [exampleFix "B1" "data_type" "7", exampleFix "A2" "formula" "=B1"])) []).1
      = failureResult (mkError "Service error") ∧
    (applyFixes { exampleSheet with flush := fun _ => .error (mkError "Service error") }
        (some (.arr [exampleFix "B1" "data_type" "7", exampleFix "A2" "formula" "=B1"])) []).2.1
      = [.setValue ⟨1, 2, 1, 1⟩ (some (.str (units "7"))),
         .setFormula ⟨2, 1, 1, 1⟩ (some (.str (units "=B1")))] ∧
    failureResult (mkError "Service error") ≠ fixedResult 2 := by
  refine ⟨rfl, rfl, ?_⟩
  intro h
  simp [failureResult, fixedResult] at h

/-- C12 (amended). For every list of fix records on which every host call
succeeds, the opening of the sheet, the lookup of each range, each write and
the final flush, `applyFixes` of injected.js performs exactly one host write
per fix, in list order, to the range of `fix.cell` with `fix.newValue`, as a
formula write when `fix.type` is `formula_error` or `formula` and as a value
write for every other type; it leaves the host as these writes and the flush
made it, makes no other call than the opening, one lookup and one write per
fix, and the flush, and returns `{success: true, fixedCount: n}` with `n` the
length of the list. -/
theorem applyFixes_one_write_per_fix (api : SheetApi σ) (fixes : List Json) (s t s' : σ)
    (calls : List HostCall) (hopen : api.openSheet s = .ok ())
    (hwrites : WritesInOrder api fixes s t calls) (hflush : api.flush t = .ok s') :
    applyFixes api (some (.arr fixes)) s
      = (fixedResult fixes.length, s', .openSheet :: (calls ++ [.flush])) ∧
    calls.length = 2 * fixes.length := by
  obtain ⟨h1, h2⟩ := forEachFix_of_writes api fixes s t calls hwrites
  refine ⟨?_, h2⟩
  simp only [applyFixes, hopen, h1, hflush]

/-- The amended C12 on three fixes for the example sheet, of the types
`data_type`, `formula` and `formula_error`: a value write and two formula
writes, in this order, and `fixedCount` 3. -/
theorem applyFixes_one_write_per_fix_witness :
    applyFixes exampleSheet
        (some (.arr [exampleFix "B1" "data_type" "7", exampleFix "A2" "formula" "=B1",
          exampleFix "C5" "formula_error" "=A2"])) []
      = (fixedResult 3,
          [.setValue ⟨1, 2, 1, 1⟩ (some (.str (units "7"))),
           .setFormula ⟨2, 1, 1, 1⟩ (some (.str (units "=B1"))),
           .setFormula ⟨5, 3, 1, 1⟩ (some (.str (units "=A2")))],
          [.openSheet,
           .getRange (some (.str (units "B1"))),
           .setValue ⟨1, 2, 1, 1⟩ (some (.str (units "7"))),
           .getRange (some (.str (units "A2"))),
           .setFormula ⟨2, 1, 1, 1⟩ (some (.str (units "=B1"))),
           .getRange (some (.str (units "C5"))),
           .setFormula ⟨5, 3, 1, 1⟩ (some (.str (units "=A2"))),
           .flush]) := by
  have hw : WritesInOrder exampleSheet
      [exampleFix "B1" "data_type" "7", exampleFix "A2" "formula" "=B1",
        exampleFix "C5" "formula_error" "=A2"] []
      [.setValue ⟨1, 2, 1, 1⟩ (some (.str (units "7"))),
        .setFormula ⟨2, 1, 1, 1⟩ (some (.str (units "=B1"))),
        .setFormula ⟨5, 3, 1, 1⟩ (some (.str (units "=A2")))]
      [.getRange (some (.str (units "B1"))),
        .setValue ⟨1, 2, 1, 1⟩ (some (.str (units "7"))),
        .getRange (some (.str (units "A2"))),
        .setFormula ⟨2, 1, 1, 1⟩ (some (.str (units "=B1"))),
        .getRange (some (.str (units "C5"))),
        .setFormula ⟨5, 3, 1, 1⟩ (some (.str (units "=A2")))] := by
    have hrecord : ∀ a b c : String, exampleFix a b c ≠ .null := by
      intro a b c h
      cases h
    refine ⟨hrecord _ _ _, _, _, _, rfl, Or.inr ⟨?_, rfl, rfl⟩,
      hrecord _ _ _, _, _, _, rfl, Or.inl ⟨Or.inr rfl, rfl, rfl⟩,
      hrecord _ _ _, _, _, _, rfl, Or.inl ⟨Or.inl rfl, rfl, rfl⟩, rfl, rfl⟩
    rw [← isFormulaType_iff]
    decide
  exact (applyFixes_one_write_per_fix exampleSheet _ [] _ _ _ rfl hw rfl).1

end AiSheets

namespace AiSheets

variable {σ : Type}

theorem roundDouble_of_small (n : Int) (h0 : 0 ≤ n) (h : n < 9007199254740992) :
    roundDouble n = n := by
  have hn : n.natAbs < 2 ^ 53 := by
    have : (2 : Nat) ^ 53 = 9007199254740992 := by norm_num
    omega
  unfold roundDouble
  exact if_pos hn

theorem fillRows_exact (lastRow row : Int) (h1 : 1 ≤ row) (h2 : row < lastRow)
    (h3 : lastRow ≤ 9007199254740991) : fillRows lastRow row = lastRow - row + 1 := by
  unfold fillRows
  rw [roundDouble_of_small (lastRow - row) (by omega) (by omega)]
  exact roundDouble_of_small _ (by omega) (by omega)

theorem targetRange_eq (api : SheetApi σ) (targetCell : Option Json) (s : σ) (range : Range)
    (h : (isTruthy targetCell = true → api.getRange s targetCell = .ok range) ∧
      (isTruthy targetCell = false → api.getActiveRange s = some range)) :
    targetRange api targetCell s
      = (.ok (some range), [if isTruthy targetCell = true then HostCall.getRange targetCell
          else HostCall.getActiveRange]) := by
  unfold targetRange
  cases hc : isTruthy targetCell with
  | true => simp [h.1 hc]
  | false => simp [h.2 hc]

/-- C13, as stated, fails.  On the example sheet (last row 10)
and the one-row range `A2`: with `useAutofill` the text `"false"`, which is not
`true`, the formula is written and then filled down rows 2 to 10; and with
`useAutofill` `true` and a formula text the sheet refuses, the write throws, so
nothing is written and nothing is filled, though the three conditions hold. -/
theorem autofill_follows_truthiness_and_a_successful_write :
    applyFormula exampleSheet (some (.str (units "=A1"))) (some (.str (units "A2")))
        (some (.str (units "false"))) []
      = (successResult,
          [.setFormula ⟨2, 1, 1, 1⟩ (some (.str (units "=A1"))),
            .autoFill ⟨2, 1, 1, 1⟩ ⟨2, 1, 9, 1⟩],
          [.openSheet, .getRange (some (.str (units "A2"))),
            .setFormula ⟨2, 1, 1, 1⟩ (some (.str (units "=A1"))),
            .getRangeAt 2 1 9 1, .autoFill ⟨2, 1, 1, 1⟩ ⟨2, 1, 9, 1⟩, .flush]) ∧
    applyFormula exampleSheet (some (.str (units "A1"))) (some (.str (units "A2")))
        (some (.bool true)) []
      = (failureResult (mkError "Invalid formula"), [],
          [.openSheet, .getRange (some (.str (units "A2"))),
            .setFormula ⟨2, 1, 1, 1⟩ (some (.str (units "A1")))]) :=
  ⟨rfl, rfl⟩

/-- C13 (amended). When the sheet opens, the range addressed by `targetCell` is
found (the active range when `targetCell` is falsy), the formula write succeeds,
the range's row is at least 1 and the sheet's last row is at most `2^53 - 1`:
`applyFormula` looks the range up, writes the formula to it, and then fills if
and only if `useAutofill` is truthy, the range is exactly one row high and the
last row is strictly greater than the range's row.  When it does not fill and
the flush succeeds, it makes no further host call than the flush, leaves the
sheet as the write and the flush made it and returns `{success: true}`.  When
it fills and the lookup of the fill range, the fill and the flush succeed, the
fill range it asks for starts at the range's own row and column, is one column
wide and has `lastRow - row + 1` rows, so it ends at the last row and has at
least 2 rows; the sheet is left as the write, the fill and the flush made it and
`{success: true}` is returned. -/
theorem applyFormula_fills_to_last_row (api : SheetApi σ)
    (formula targetCell useAutofill : Option Json) (s s1 : σ) (range : Range)
    (hopen : api.openSheet s = .ok ())
    (hrange : (isTruthy targetCell = true → api.getRange s targetCell = .ok range) ∧
      (isTruthy targetCell = false → api.getActiveRange s = some range))
    (hset : api.setFormula s range formula = .ok s1)
    (hrow : 1 ≤ range.row) (hlast : api.getLastRow s1 ≤ 9007199254740991) :
    (¬ (isTruthy useAutofill = true ∧ range.numRows = 1 ∧ range.row < api.getLastRow s1) →
      ∀ s3, api.flush s1 = .ok s3 →
        applyFormula api formula targetCell useAutofill s
          = (successResult, s3,
              [.openSheet,
                if isTruthy targetCell = true then .getRange targetCell else .getActiveRange,
                .setFormula range formula, .flush])) ∧
    ((isTruthy useAutofill = true ∧ range.numRows = 1 ∧ range.row < api.getLastRow s1) →
      ∀ fill s2 s3,
        api.getRangeAt s1 range.row range.col (api.getLastRow s1 - range.row + 1) 1 = .ok fill →
        api.autoFill s1 range fill = .ok s2 → api.flush s2 = .ok s3 →
        applyFormula api formula targetCell useAutofill s
          = (successResult, s3,
              [.openSheet,
                if isTruthy targetCell = true then .getRange targetCell else .getActiveRange,
                .setFormula range formula,
                .getRangeAt range.row range.col (api.getLastRow s1 - range.row + 1) 1,
                .autoFill range fill, .flush]) ∧
        range.row + (api.getLastRow s1 - range.row + 1) - 1 = api.getLastRow s1 ∧
        2 ≤ api.getLastRow s1 - range.row + 1) := by
  have htr := targetRange_eq api targetCell s range hrange
  constructor
  · intro hgo s3 hflush
    have hstep : autofillStep api range useAutofill s1 = ⟨.ok (), s1, []⟩ := by
      unfold autofillStep
      by_cases h1 : (isTruthy useAutofill && decide (range.numRows = 1)) = true
      · rw [if_pos h1]
        have hle : ¬ api.getLastRow s1 > range.row := by
          intro hgt
          apply hgo
          simp at h1
          exact ⟨h1.1, h1.2, hgt⟩
        rw [if_neg hle]
      · rw [if_neg h1]
    unfold applyFormula
    simp [hopen, htr, hset, hstep, hflush]
  · rintro ⟨hu, hn, hlt⟩ fill s2 s3 hfill hauto hflush
    have hrows := fillRows_exact (api.getLastRow s1) range.row hrow hlt hlast
    have hstep : autofillStep api range useAutofill s1
        = ⟨.ok (), s2, [.getRangeAt range.row range.col (api.getLastRow s1 - range.row + 1) 1,
            .autoFill range fill]⟩ := by
      unfold autofillStep
      simp [hu, hn, hlt, hrows, hfill, hauto]
    refine ⟨?_, by omega, by omega⟩
    unfold applyFormula
    simp [hopen, htr, hset, hstep, hflush]

/-- On the example sheet, whose last row is 10: the formula `=A1` for `A2` with
`useAutofill` `true` is written and filled down the 9 rows 2 to 10; for no
target cell and `useAutofill` `false` it is written to the active range `C3`
and nothing is filled. -/
theorem applyFormula_fills_to_last_row_witness :
    applyFormula exampleSheet (some (.str (units "=A1"))) (some (.str (units "A2")))
        (some (.bool true)) []
      = (successResult,
          [.setFormula ⟨2, 1, 1, 1⟩ (some (.str (units "=A1"))),
            .autoFill ⟨2, 1, 1, 1⟩ ⟨2, 1, 9, 1⟩],
          [.openSheet, .getRange (some (.str (units "A2"))),
            .setFormula ⟨2, 1, 1, 1⟩ (some (.str (units "=A1"))),
            .getRangeAt 2 1 9 1, .autoFill ⟨2, 1, 1, 1⟩ ⟨2, 1, 9, 1⟩, .flush]) ∧
    applyFormula exampleSheet (some (.str (units "=A1"))) none (some (.bool false)) []
      = (successResult, [.setFormula ⟨3, 3, 1, 1⟩ (some (.str (units "=A1")))],
          [.openSheet, .getActiveRange,
            .setFormula ⟨3, 3, 1, 1⟩ (some (.str (units "=A1"))), .flush]) :=
  ⟨((applyFormula_fills_to_last_row exampleSheet (some (.str (units "=A1")))
        (some (.str (units "A2"))) (some (.bool true)) []
        [.setFormula ⟨2, 1, 1, 1⟩ (some (.str (units "=A1")))] ⟨2, 1, 1, 1⟩ rfl
        ⟨fun _ => rfl, fun h => Bool.noConfusion h⟩ rfl (by decide) (by decide)).2
      ⟨rfl, rfl, by decide⟩ ⟨2, 1, 9, 1⟩
      [.setFormula ⟨2, 1, 1, 1⟩ (some (.str (units "=A1"))),
        .autoFill ⟨2, 1, 1, 1⟩ ⟨2, 1, 9, 1⟩]
      [.setFormula ⟨2, 1, 1, 1⟩ (some (.str (units "=A1"))),
        .autoFill ⟨2, 1, 1, 1⟩ ⟨2, 1, 9, 1⟩] rfl rfl rfl).1,
    (applyFormula_fills_to_last_row exampleSheet (some (.str (units "=A1"))) none
        (some (.bool false)) [] [.setFormula ⟨3, 3, 1, 1⟩ (some (.str (units "=A1")))]
        ⟨3, 3, 1, 1⟩ rfl ⟨fun h => Bool.noConfusion h, fun _ => rfl⟩ rfl (by decide)
        (by decide)).1
      (fun h => Bool.noConfusion h.1) _ rfl⟩

end AiSheets
